import Mathlib

/-!
Shallow embedding of the `dancing-links` exact-cover solver
(`src/matrix.rs`, `src/solve.rs`).

Machine integers are modelled as `Nat` with explicit `% 2^w` at the
places where the Rust code casts (`as u16`, `as u32`) or wraps
(`wrapping_add_signed`).  `Index` values are `Nat`; the two sentinels are
`GLOBAL = 0` and `DANGLING = 2^32 - 1`.  Interior mutability (`Cell`) is
modelled by threading the whole `Matrix` value through every operation.
Arena reads that would panic in Rust (out-of-bounds) are exposed through
`Matrix.lookup?` returning `none`; the total accessor `Matrix.get`
returns a default node in that case and is only relied upon inside the
in-bounds regime.
-/

namespace DancingLinks

/-- `Index::DANGLING = u32::MAX`. -/
def DANGLING : Nat := 4294967295

/-- `matrix::Node`: six fields; `u`,`d`,`l`,`r` are the interior-mutable
neighbor pointers (`Cell<Index>` in the source). -/
structure Node where
  row : Nat
  col : Nat
  u : Nat
  d : Nat
  l : Nat
  r : Nat
deriving Repr, DecidableEq

/-- `matrix::Header`: a node plus the interior-mutable `size` counter. -/
structure Header where
  size : Nat
  node : Node
deriving Repr, DecidableEq

/-- `matrix::Matrix`: header region followed by the data-node region. -/
structure Matrix where
  headers : List Header
  nodes : List Node
deriving Repr, DecidableEq

/-- `Node::dangling`. -/
def Node.dangling (row col : Nat) : Node :=
  ⟨row, col, DANGLING, DANGLING, DANGLING, DANGLING⟩

/-- `Index::header(col) = Index(1 + col)`. -/
def headerIdx (col : Nat) : Nat := 1 + col

/-- `Matrix::new(column_count)`: root header at index 0, then one header
per column with the `l`/`r` chain exactly as the source builds it
(root's `l` is `Index::header(column_count)`, i.e. `column_count + 1`). -/
def Matrix.new (column_count : Nat) : Matrix :=
  { headers :=
      { size := 0,
        node := ⟨0, 0, DANGLING, DANGLING,
                 headerIdx column_count, headerIdx 0⟩ } ::
      (List.range column_count).map (fun i =>
        { size := 0,
          node := ⟨0, i + 1, DANGLING, DANGLING,
                   if i = 0 then 0 else headerIdx (i - 1),
                   if i + 1 = column_count then 0 else headerIdx (i + 1)⟩ }),
    nodes := [] }

/-- `impl ops::Index<Index> for Matrix`, as a partial function: `none`
is the out-of-bounds case, in which the Rust source panics. -/
def Matrix.lookup? (m : Matrix) (i : Nat) : Option Node :=
  if i < m.headers.length then (m.headers.get? i).map Header.node
  else m.nodes.get? (i - m.headers.length)

def defaultNode : Node := Node.dangling 0 0

/-- Total version of the arena read, used by the in-bounds regime. -/
def Matrix.get (m : Matrix) (i : Nat) : Node :=
  (m.lookup? i).getD defaultNode

/-- In-place update of one list element (identity out of bounds). -/
def modifyIdx {α : Type} (f : α → α) : Nat → List α → List α
  | _, [] => []
  | 0, x :: xs => f x :: xs
  | n + 1, x :: xs => x :: modifyIdx f n xs

/-- Write one node field through the arena (a `Cell::set` in the source). -/
def Matrix.modifyNode (m : Matrix) (i : Nat) (f : Node → Node) : Matrix :=
  if i < m.headers.length then
    { m with headers := modifyIdx (fun h => { h with node := f h.node }) i m.headers }
  else
    { m with nodes := modifyIdx f (i - m.headers.length) m.nodes }

def Matrix.setU (m : Matrix) (i v : Nat) : Matrix :=
  m.modifyNode i (fun n => { n with u := v })
def Matrix.setD (m : Matrix) (i v : Nat) : Matrix :=
  m.modifyNode i (fun n => { n with d := v })
def Matrix.setL (m : Matrix) (i v : Nat) : Matrix :=
  m.modifyNode i (fun n => { n with l := v })
def Matrix.setR (m : Matrix) (i v : Nat) : Matrix :=
  m.modifyNode i (fun n => { n with r := v })

/-- `attach_vertical(a, b)`: `a.d = b; b.u = a`. -/
def Matrix.attachVertical (m : Matrix) (a b : Nat) : Matrix :=
  (m.setD a b).setU b a

/-- `detach_vertical(i)`. -/
def Matrix.detachVertical (m : Matrix) (i : Nat) : Matrix :=
  let a := (m.get i).u
  let b := (m.get i).d
  (m.setD a b).setU b a

/-- `reattach_vertical(i)`. -/
def Matrix.reattachVertical (m : Matrix) (i : Nat) : Matrix :=
  let a := (m.get i).u
  let b := (m.get i).d
  (m.setD a i).setU b i

/-- `attach_horizontal(a, b)`: `a.r = b; b.l = a`. -/
def Matrix.attachHorizontal (m : Matrix) (a b : Nat) : Matrix :=
  (m.setR a b).setL b a

/-- `detach_horizontal(i)`. -/
def Matrix.detachHorizontal (m : Matrix) (i : Nat) : Matrix :=
  let a := (m.get i).l
  let b := (m.get i).r
  (m.setR a b).setL b a

/-- `reattach_horizontal(i)`. -/
def Matrix.reattachHorizontal (m : Matrix) (i : Nat) : Matrix :=
  let a := (m.get i).l
  let b := (m.get i).r
  (m.setR a i).setL b i

/-- `Matrix::size(col)`. -/
def Matrix.size (m : Matrix) (col : Nat) : Nat :=
  ((m.headers.get? col).map Header.size).getD 0

/-- `Matrix::update_size(col, delta)`: `u32::wrapping_add_signed`. -/
def Matrix.updateSize (m : Matrix) (col : Nat) (delta : Int) : Matrix :=
  let f : Header → Header := fun h =>
    { h with size := (((h.size : Int) + delta) % (2 ^ 32 : Int)).toNat }
  { m with headers := modifyIdx f col m.headers }

/-- `Matrix::index_to_column`. -/
def Matrix.indexToColumn (m : Matrix) (i : Nat) : Nat :=
  (m.get i).col

/-- `Matrix::push`: appends, returns `(headers.len() + old nodes.len()) as u32`. -/
def Matrix.push (m : Matrix) (n : Node) : Matrix × Nat :=
  ({ m with nodes := m.nodes ++ [n] },
   (m.headers.length + m.nodes.length) % 2 ^ 32)

def Matrix.total (m : Matrix) : Nat := m.headers.length + m.nodes.length

/-- One walker (`Matrix::walk`): repeatedly follow the selected pointer
from `cur`, yielding each visited index, stopping (without yielding)
when the walk returns to `start`.  `fuel` only truncates walks whose
pointers are corrupt; a terminating walk visits pairwise distinct
in-bounds indices, so `m.total + 1` fuel is always enough for it. -/
def walkGo (m : Matrix) (f : Node → Nat) (start : Nat) : Nat → Nat → List Nat
  | 0, _ => []
  | fuel + 1, cur =>
    let nxt := f (m.get cur)
    if nxt = start then [] else nxt :: walkGo m f start fuel nxt

/-- `walk_right(start)` as a list (used for the mutation-free selection walk). -/
def Matrix.walkRightList (m : Matrix) (start : Nat) : List Nat :=
  walkGo m Node.r start (m.total + 1) start

/-- Rust `Iterator::min_by_key` (first element wins ties). -/
def minByFirst (key : Nat → Nat) : List Nat → Option Nat
  | [] => none
  | x :: xs => some (xs.foldl (fun acc y => if key y < key acc then y else acc) x)

/-- The column-selection step of `Solver::solve_inner`:
`walk_right(GLOBAL).map(index_to_column).min_by_key(size)`. -/
def Matrix.chooseCol (m : Matrix) : Option Nat :=
  minByFirst m.size ((m.walkRightList 0).map m.indexToColumn)

/-- Inner loop of `Solver::cover`: `for j in walk_right(i) { detach_vertical(j);
update_size(column(j), -1) }`, reading the live state at each step. -/
def coverRowGo : Nat → Matrix → Nat → Nat → Matrix
  | 0, m, _, _ => m
  | fuel + 1, m, start, cur =>
    let j := (m.get cur).r
    if j = start then m
    else
      let m := m.detachVertical j
      let m := m.updateSize (m.indexToColumn j) (-1)
      coverRowGo fuel m start j

/-- Outer loop of `Solver::cover`: `for i in walk_down(col)`. -/
def coverColGo : Nat → Matrix → Nat → Nat → Matrix
  | 0, m, _, _ => m
  | fuel + 1, m, start, cur =>
    let i := (m.get cur).d
    if i = start then m
    else coverColGo fuel (coverRowGo (m.total + 1) m i i) start i

/-- `Solver::cover(col)` (note `Index::from(col) = Index(col)`). -/
def Matrix.cover (m : Matrix) (col : Nat) : Matrix :=
  let m := m.detachHorizontal col
  coverColGo (m.total + 1) m col col

/-- Inner loop of `Solver::uncover`: `for j in walk_left(i) { reattach_vertical(j);
update_size(column(j), 1) }`. -/
def uncoverRowGo : Nat → Matrix → Nat → Nat → Matrix
  | 0, m, _, _ => m
  | fuel + 1, m, start, cur =>
    let j := (m.get cur).l
    if j = start then m
    else
      let m := m.reattachVertical j
      let m := m.updateSize (m.indexToColumn j) 1
      uncoverRowGo fuel m start j

/-- Outer loop of `Solver::uncover`: `for i in walk_up(col)`. -/
def uncoverColGo : Nat → Matrix → Nat → Nat → Matrix
  | 0, m, _, _ => m
  | fuel + 1, m, start, cur =>
    let i := (m.get cur).u
    if i = start then m
    else uncoverColGo fuel (uncoverRowGo (m.total + 1) m i i) start i

/-- `Solver::uncover(col)`. -/
def Matrix.uncover (m : Matrix) (col : Nat) : Matrix :=
  let m := uncoverColGo (m.total + 1) m col col
  m.reattachHorizontal col

/-- `for j in walk_right(i).map(index_to_column) { cover(j) }`. -/
def coverJsGo : Nat → Matrix → Nat → Nat → Matrix
  | 0, m, _, _ => m
  | fuel + 1, m, start, cur =>
    let j := (m.get cur).r
    if j = start then m
    else coverJsGo fuel (m.cover (m.indexToColumn j)) start j

/-- `for j in walk_left(i).map(index_to_column) { uncover(j) }`. -/
def uncoverJsGo : Nat → Matrix → Nat → Nat → Matrix
  | 0, m, _, _ => m
  | fuel + 1, m, start, cur =>
    let j := (m.get cur).l
    if j = start then m
    else uncoverJsGo fuel (m.uncover (m.indexToColumn j)) start j

/-- `core::ops::ControlFlow<T, ()>`. -/
inductive CFlow (T : Type) where
  | brk (t : T)
  | cont

/-- Result of a `solve_inner` run: early-exit value, final arena state,
final callback state, and the list of deliveries (each the `solution`
vector of node indices at the moment `inspect` was invoked). -/
structure SRes (T σ : Type) where
  res : Option T
  m : Matrix
  cs : σ
  tr : List (List Nat)

/-- The `for i in walk_down(col)` loop body of `solve_inner`, with the
trailing `uncover(col)` at loop exit, parameterized by the recursive
call `recur`.  On `Break` the source returns immediately, skipping
every uncover.  `wfuel` only bounds the (terminating) down-walk. -/
def solveGoF {T σ : Type} (recur : Matrix → List Nat → σ → SRes T σ) :
    Nat → Matrix → List Nat → σ → Nat → Nat → SRes T σ
  | 0, m, _, cs, _, _ => ⟨none, m, cs, []⟩
  | wfuel + 1, m, sol, cs, col, cur =>
    let i := (m.get cur).d
    if i = col then ⟨none, m.uncover col, cs, []⟩
    else
      let m₁ := coverJsGo (m.total + 1) m i i
      let r₁ := recur m₁ (sol ++ [i]) cs
      match r₁.res with
      | some t => ⟨some t, r₁.m, r₁.cs, r₁.tr⟩
      | none =>
        let m₂ := uncoverJsGo (r₁.m.total + 1) r₁.m i i
        let r₂ := solveGoF recur wfuel m₂ sol r₁.cs col i
        ⟨r₂.res, r₂.m, r₂.cs, r₁.tr ++ r₂.tr⟩

/-- `Solver::solve_inner`.  `inspect` is the `FnMut` callback: it may
read the arena (it captures `&self` in the source) and threads its own
state `σ`.  `rfuel` bounds only the recursion depth (in the source the
depth is bounded because every recursive call strictly shrinks the
header ring). -/
def solveInner {T σ : Type} (inspect : Matrix → σ → List Nat → σ × CFlow T) :
    Nat → Matrix → List Nat → σ → SRes T σ
  | 0, m, _, cs => ⟨none, m, cs, []⟩
  | rfuel + 1, m, sol, cs =>
    match m.chooseCol with
    | none =>
      match inspect m cs sol with
      | (cs', CFlow.cont) => ⟨none, m, cs', [sol]⟩
      | (cs', CFlow.brk t) => ⟨some t, m, cs', [sol]⟩
    | some col =>
      let m' := m.cover col
      solveGoF (fun mm ss cc => solveInner inspect rfuel mm ss cc)
        (m'.total + 1) m' sol cs col col

/-- `Solver::solve_count`. -/
def Matrix.solveCount (m : Matrix) (rfuel : Nat) : Nat :=
  (solveInner (fun _ c _ => (c + 1, (CFlow.cont : CFlow Unit))) rfuel m [] 0).cs

/-- The adapter `Solver::solve` wraps around the caller callback: it
clears the buffer, rebuilds it from the partial solution
(`buffer.clear(); buffer.extend(..)` — reading the live arena's `row`
fields), hands it to the caller, and keeps the caller-mutated buffer
(it is the same `Vec` across invocations). -/
def wrapCb {T σ : Type} (cb : σ → List Nat → σ × List Nat × CFlow T) :
    Matrix → σ × List Nat → List Nat → (σ × List Nat) × CFlow T :=
  fun mm st sol =>
    let buffer := sol.map (fun i => (mm.get i).row)
    let out := cb st.1 buffer
    ((out.1, out.2.1), out.2.2)

/-- `Solver::solve`.  The caller callback `cb` receives the buffer
contents, and returns its new state, the buffer as mutated by the
caller, and the control-flow verdict. -/
def Matrix.solve {T σ : Type} (m : Matrix)
    (cb : σ → List Nat → σ × List Nat × CFlow T) (rfuel : Nat) (cs0 : σ) :
    SRes T (σ × List Nat) :=
  solveInner (wrapCb cb) rfuel m [] (cs0, [])

/-- Pointwise relation on verdicts: `cont` matches `cont`, `brk`
matches `brk` up to `VB`. -/
def vRel {T₁ T₂ : Type} (VB : T₁ → T₂ → Prop) : CFlow T₁ → CFlow T₂ → Prop
  | CFlow.cont, CFlow.cont => True
  | CFlow.brk t₁, CFlow.brk t₂ => VB t₁ t₂
  | _, _ => False

/-- Pointwise relation on optional results. -/
def oRel {T₁ T₂ : Type} (VB : T₁ → T₂ → Prop) : Option T₁ → Option T₂ → Prop
  | none, none => True
  | some t₁, some t₂ => VB t₁ t₂
  | _, _ => False

/-- Insert into a strictly sorted list, keeping it sorted and
duplicate-free (the `BTreeSet::insert` effect). -/
def insertSorted (x : Nat) : List Nat → List Nat
  | [] => [x]
  | y :: ys =>
    if x = y then y :: ys
    else if x < y then x :: y :: ys
    else y :: insertSorted x ys

/-- `BTreeSet` collection of all identifiers: sorted, deduplicated
(iteration order of a `BTreeSet<u16>` is ascending). -/
def denseToSparse (rows : List (List Nat)) : List Nat :=
  rows.flatten.foldr insertSorted []

/-- `sparse_to_dense` lookup: 1-based position in the sorted list. -/
def sparseToDense (dts : List Nat) (s : Nat) : Nat := dts.indexOf s + 1

/-- Builder state while placing one row: the arena, the per-column tail
tracker `prev`, and the `head`/`tail` of the row being placed. -/
structure BuildSt where
  m : Matrix
  prev : List Nat
  head : Option Nat
  tail : Option Nat

/-- One identifier of one row in `Solver::new`'s inner loop. -/
def buildCell (d2s : List Nat) (row : Nat) (st : BuildSt) (sparse : Nat) : BuildSt :=
  let col := sparseToDense d2s sparse
  let m := st.m.updateSize col 1
  let (m, index) := m.push (Node.dangling row col)
  let up := st.prev.getD col 0
  let m := m.attachVertical up index
  let m := match st.head with
    | some _ => m.attachHorizontal (index - 1) index
    | none => m
  { m := m, prev := st.prev.set col index,
    head := some (st.head.getD index), tail := some index }

/-- One row of `Solver::new`'s outer loop, closing the row cycle. -/
def buildRow (d2s : List Nat) (m : Matrix) (prev : List Nat) (row : Nat)
    (ids : List Nat) : Matrix × List Nat :=
  let st := ids.foldl (buildCell d2s row) ⟨m, prev, none, none⟩
  let m := match st.head, st.tail with
    | some h, some t => st.m.attachHorizontal t h
    | _, _ => st.m
  (m, st.prev)

/-- `Solver::new(rows)`: column discovery, arena allocation
(`dense_to_sparse.len() as u16`), row placement (`RowId = i as u32`),
and the final column-cycle completion loop. -/
def solverNew (rows : List (List Nat)) : Matrix :=
  let d2s := denseToSparse rows
  let m0 := Matrix.new (d2s.length % 2 ^ 16)
  let built := rows.enum.foldl
    (fun (acc : Matrix × List Nat) p => buildRow d2s acc.1 acc.2 (p.1 % 2 ^ 32) p.2)
    (m0, List.range m0.headers.length)
  (List.range built.1.headers.length).foldl
    (fun m col => m.attachVertical (built.2.getD col 0) col) built.1

/-- The `row` field of a node (`self.matrix[*index].row`). -/
def Matrix.rowOf (m : Matrix) (i : Nat) : Nat := (m.get i).row

/-- Buffers delivered to `solve`'s caller, reconstructed from the trace
of `solution` snapshots (valid because `row` fields never change). -/
def bufsOf (m : Matrix) (tr : List (List Nat)) : List (List Nat) :=
  tr.map (List.map m.rowOf)

/-- A caller callback that halts at the first delivery, leaving the
buffer as delivered. -/
def breakAll : Unit → List Nat → Unit × List Nat × CFlow Unit :=
  fun _ b => ((), b, CFlow.brk ())

/-- Replay a caller callback over a list of delivered buffers; returns
the position and value of the first `brk` verdict, if any. -/
def firstBreakAt {T σ : Type} (cb : σ → List Nat → σ × List Nat × CFlow T) :
    σ → List (List Nat) → Option (Nat × T)
  | _, [] => none
  | s, b :: bs =>
    match cb s b with
    | (_, _, CFlow.brk t) => some (0, t)
    | (s', _, CFlow.cont) => (firstBreakAt cb s' bs).map (fun p => (p.1 + 1, p.2))

/-- Caller state after replaying a callback over delivered buffers. -/
def scanState {T σ : Type} (cb : σ → List Nat → σ × List Nat × CFlow T) :
    σ → List (List Nat) → σ
  | s, [] => s
  | s, b :: bs =>
    match cb s b with
    | (s', _, CFlow.brk _) => s'
    | (s', _, CFlow.cont) => scanState cb s' bs

/-- Two arenas with the same layout and the same immutable (`row`,
`col`) fields everywhere; only pointers and sizes may differ.  Every
search operation preserves this relation to the starting arena. -/
def sameRC (m m' : Matrix) : Prop :=
  m.headers.length = m'.headers.length ∧ m.nodes.length = m'.nodes.length ∧
  ∀ i, (m.get i).row = (m'.get i).row ∧ (m.get i).col = (m'.get i).col

/-- A correctly doubly-linked vertical arc: `a.d = b` and `b.u = a`. -/
def dlink (m : Matrix) (a b : Nat) : Prop := (m.get a).d = b ∧ (m.get b).u = a

/-- A correctly doubly-linked horizontal arc: `a.r = b` and `b.l = a`. -/
def rlink (m : Matrix) (a b : Nat) : Prop := (m.get a).r = b ∧ (m.get b).l = a

/-- `dPath m a xs b`: from `a` the `d` pointers run through `xs` in
order and then reach `b`, with the `u` pointers inverse along the way.
`dPath m c xs c` is the column cycle of header `c` with data nodes `xs`. -/
def dPath (m : Matrix) : Nat → List Nat → Nat → Prop
  | a, [], b => dlink m a b
  | a, x :: xs, b => dlink m a x ∧ dPath m x xs b

/-- Horizontal analogue of `dPath` (a row cycle is `rPath m i xs i`). -/
def rPath (m : Matrix) : Nat → List Nat → Nat → Prop
  | a, [], b => rlink m a b
  | a, x :: xs, b => rlink m a x ∧ rPath m x xs b

/-- A header-ring arc.  The `l` pointer of the root (index 0) is
exempt: the source initializes it out of range (`Matrix::new` sets it
to `column_count + 1`) and never reads it. -/
def ringlink (m : Matrix) (a b : Nat) : Prop :=
  (m.get a).r = b ∧ (b ≠ 0 → (m.get b).l = a)

/-- The header ring through root and the active columns. -/
def ringPath (m : Matrix) : Nat → List Nat → Nat → Prop
  | a, [], b => ringlink m a b
  | a, x :: xs, b => ringlink m a x ∧ ringPath m x xs b

/-- `j` is a data-node index of `m`. -/
def inData (m : Matrix) (j : Nat) : Prop :=
  m.headers.length ≤ j ∧ j < m.total

/-- Equality of arenas up to the root header's `l` pointer (which the
source initializes out of range and never reads). -/
def eqvL (m m' : Matrix) : Prop :=
  m.headers.length = m'.headers.length ∧ m.nodes.length = m'.nodes.length ∧
  (∀ c, m.size c = m'.size c) ∧
  (∀ i, 0 < i → m.get i = m'.get i) ∧
  (m.get 0).u = (m'.get 0).u ∧ (m.get 0).d = (m'.get 0).d ∧
  (m.get 0).r = (m'.get 0).r ∧ (m.get 0).row = (m'.get 0).row ∧
  (m.get 0).col = (m'.get 0).col

/-- One step of `cover`'s inner loop. -/
def dstep (m : Matrix) (j : Nat) : Matrix :=
  let m := m.detachVertical j
  m.updateSize (m.indexToColumn j) (-1)

/-- One step of `uncover`'s inner loop. -/
def rstep (m : Matrix) (j : Nat) : Matrix :=
  let m := m.reattachVertical j
  m.updateSize (m.indexToColumn j) 1

/-- The data-node indices of an arena, in arena order. -/
def dataIdx (m : Matrix) : List Nat :=
  (List.range m.nodes.length).map (fun t => m.headers.length + t)

/-- The data nodes carrying column `c`, in arena order. -/
def colNodes (m : Matrix) (c : Nat) : List Nat :=
  (dataIdx m).filter (fun n => (m.get n).col = c)

/-- The data nodes carrying row `r`, in arena order. -/
def rowNodesM (m : Matrix) (r : Nat) : List Nat :=
  (dataIdx m).filter (fun n => (m.get n).row = r)

/-- One-sided downward chain: consecutive `d`/`u` double links; the
last element's `d` pointer is unconstrained (mid-build it is
`DANGLING`). -/
def dChain (m : Matrix) : Nat → List Nat → Prop
  | _, [] => True
  | a, x :: xs => dlink m a x ∧ dChain m x xs

/-- One-sided rightward chain (a row under construction). -/
def rChain (m : Matrix) : Nat → List Nat → Prop
  | _, [] => True
  | a, x :: xs => rlink m a x ∧ rChain m x xs

/-! ### Workhorse lemmas: reads after writes -/

theorem modifyIdx_length {α : Type} (f : α → α) (n : Nat) (xs : List α) :
    (modifyIdx f n xs).length = xs.length := by
  induction xs generalizing n with
  | nil => cases n <;> rfl
  | cons x xs ih => cases n <;> simp [modifyIdx, ih]

theorem modifyIdx_get? {α : Type} (f : α → α) (n k : Nat) (xs : List α) :
    (modifyIdx f n xs).get? k = if k = n then (xs.get? k).map f else xs.get? k := by
  induction xs generalizing n k with
  | nil => simp [modifyIdx]
  | cons x xs ih =>
    cases n with
    | zero => cases k <;> simp [modifyIdx]
    | succ n =>
      cases k with
      | zero => simp [modifyIdx]
      | succ k => simpa [modifyIdx, Nat.succ_eq_add_one] using ih n k

theorem Matrix.modifyNode_headers_length (m : Matrix) (i : Nat) (f : Node → Node) :
    (m.modifyNode i f).headers.length = m.headers.length := by
  unfold Matrix.modifyNode
  split <;> simp [modifyIdx_length]

theorem Matrix.modifyNode_nodes_length (m : Matrix) (i : Nat) (f : Node → Node) :
    (m.modifyNode i f).nodes.length = m.nodes.length := by
  unfold Matrix.modifyNode
  split <;> simp [modifyIdx_length]

theorem Matrix.lookup?_modifyNode (m : Matrix) (i j : Nat) (f : Node → Node) :
    (m.modifyNode i f).lookup? j =
      if j = i then (m.lookup? i).map f else m.lookup? j := by
  unfold Matrix.modifyNode Matrix.lookup?
  by_cases hih : i < m.headers.length
  · rw [if_pos hih]
    simp only [modifyIdx_length]
    by_cases hjh : j < m.headers.length
    · rw [if_pos hjh, modifyIdx_get?]
      by_cases hji : j = i
      · subst hji
        rw [if_pos rfl, if_pos rfl, if_pos hjh, Option.map_map, Option.map_map]
        rfl
      · rw [if_neg hji, if_neg hji, if_pos hjh]
    · rw [if_neg hjh, if_neg hjh]
      rw [if_neg (by rintro rfl; exact hjh hih)]
  · rw [if_neg hih]
    simp only
    by_cases hjh : j < m.headers.length
    · rw [if_pos hjh, if_pos hjh]
      rw [if_neg (by rintro rfl; exact hih hjh)]
    · rw [if_neg hjh, if_neg hjh, modifyIdx_get?]
      by_cases hji : j = i
      · subst hji
        rw [if_pos rfl, if_pos rfl, if_neg hih]
      · rw [if_neg (by omega), if_neg hji]

theorem listGet?_isSome {α : Type} (l : List α) (n : Nat) :
    (l.get? n).isSome = true ↔ n < l.length := by
  induction l generalizing n with
  | nil => simp
  | cons x xs ih =>
    cases n with
    | zero => simp
    | succ n => simpa [List.get?_eq_getElem?] using ih n

theorem Matrix.lookup?_isSome (m : Matrix) (i : Nat) :
    (m.lookup? i).isSome = true ↔ i < m.total := by
  unfold Matrix.lookup? Matrix.total
  by_cases hih : i < m.headers.length
  · have h1 : ((m.headers.get? i).map Header.node).isSome = (m.headers.get? i).isSome := by
      cases m.headers.get? i <;> rfl
    rw [if_pos hih, h1, listGet?_isSome]
    exact ⟨fun _ => by omega, fun _ => hih⟩
  · rw [if_neg hih, listGet?_isSome]
    constructor <;> intro <;> omega

theorem Matrix.get_modifyNode (m : Matrix) (i j : Nat) (f : Node → Node) :
    (m.modifyNode i f).get j =
      if j = i ∧ i < m.total then f (m.get i) else m.get j := by
  unfold Matrix.get
  rw [Matrix.lookup?_modifyNode]
  by_cases hji : j = i
  · subst hji
    rw [if_pos rfl]
    by_cases hj : j < m.total
    · rw [if_pos ⟨rfl, hj⟩]
      obtain ⟨n, hn⟩ := Option.isSome_iff_exists.mp ((m.lookup?_isSome j).mpr hj)
      rw [hn]
      rfl
    · rw [if_neg (by tauto)]
      have : m.lookup? j = none := by
        cases h : m.lookup? j with
        | none => rfl
        | some n => exact absurd ((m.lookup?_isSome j).mp (by rw [h]; rfl)) hj
      rw [this]
      rfl
  · rw [if_neg hji, if_neg (by tauto)]

/-! ### `sameRC`: layout and row/col fields are search-invariant -/

theorem sameRC_refl (m : Matrix) : sameRC m m :=
  ⟨rfl, rfl, fun _ => ⟨rfl, rfl⟩⟩

theorem sameRC_trans {m₁ m₂ m₃ : Matrix} (h1 : sameRC m₁ m₂) (h2 : sameRC m₂ m₃) :
    sameRC m₁ m₃ :=
  ⟨h1.1.trans h2.1, h1.2.1.trans h2.2.1, fun i =>
    ⟨(h1.2.2 i).1.trans (h2.2.2 i).1, (h1.2.2 i).2.trans (h2.2.2 i).2⟩⟩

theorem sameRC_total {m m' : Matrix} (h : sameRC m m') : m.total = m'.total := by
  unfold Matrix.total
  rw [h.1, h.2.1]

theorem sameRC_modifyNode (m : Matrix) (i : Nat) (f : Node → Node)
    (hf : ∀ n, (f n).row = n.row ∧ (f n).col = n.col) :
    sameRC (m.modifyNode i f) m := by
  refine ⟨m.modifyNode_headers_length i f, m.modifyNode_nodes_length i f, fun j => ?_⟩
  rw [Matrix.get_modifyNode]
  split
  · next h => rw [h.1, (hf (m.get i)).1, (hf (m.get i)).2]; exact ⟨rfl, rfl⟩
  · exact ⟨rfl, rfl⟩

theorem sameRC_setU (m : Matrix) (i v : Nat) : sameRC (m.setU i v) m :=
  sameRC_modifyNode m i _ (fun _ => ⟨rfl, rfl⟩)

theorem sameRC_setD (m : Matrix) (i v : Nat) : sameRC (m.setD i v) m :=
  sameRC_modifyNode m i _ (fun _ => ⟨rfl, rfl⟩)

theorem sameRC_setL (m : Matrix) (i v : Nat) : sameRC (m.setL i v) m :=
  sameRC_modifyNode m i _ (fun _ => ⟨rfl, rfl⟩)

theorem sameRC_setR (m : Matrix) (i v : Nat) : sameRC (m.setR i v) m :=
  sameRC_modifyNode m i _ (fun _ => ⟨rfl, rfl⟩)

theorem Matrix.get_updateSize (m : Matrix) (c : Nat) (δ : Int) (j : Nat) :
    (m.updateSize c δ).get j = m.get j := by
  unfold Matrix.updateSize Matrix.get Matrix.lookup?
  simp only [modifyIdx_length]
  by_cases hjh : j < m.headers.length
  · rw [if_pos hjh, if_pos hjh, modifyIdx_get?]
    by_cases hjc : j = c
    · rw [if_pos hjc, Option.map_map]
      rfl
    · rw [if_neg hjc]
  · rw [if_neg hjh, if_neg hjh]

theorem Matrix.updateSize_headers_length (m : Matrix) (c : Nat) (δ : Int) :
    (m.updateSize c δ).headers.length = m.headers.length := by
  unfold Matrix.updateSize
  simp [modifyIdx_length]

theorem Matrix.updateSize_nodes (m : Matrix) (c : Nat) (δ : Int) :
    (m.updateSize c δ).nodes = m.nodes := rfl

theorem sameRC_updateSize (m : Matrix) (c : Nat) (δ : Int) :
    sameRC (m.updateSize c δ) m :=
  ⟨m.updateSize_headers_length c δ, rfl, fun j => by rw [m.get_updateSize c δ j]; exact ⟨rfl, rfl⟩⟩

theorem sameRC_attachVertical (m : Matrix) (a b : Nat) : sameRC (m.attachVertical a b) m :=
  sameRC_trans (sameRC_setU _ b a) (sameRC_setD m a b)

theorem sameRC_detachVertical (m : Matrix) (i : Nat) : sameRC (m.detachVertical i) m :=
  sameRC_trans (sameRC_setU _ _ _) (sameRC_setD m _ _)

theorem sameRC_reattachVertical (m : Matrix) (i : Nat) : sameRC (m.reattachVertical i) m :=
  sameRC_trans (sameRC_setU _ _ _) (sameRC_setD m _ _)

theorem sameRC_attachHorizontal (m : Matrix) (a b : Nat) : sameRC (m.attachHorizontal a b) m :=
  sameRC_trans (sameRC_setL _ b a) (sameRC_setR m a b)

theorem sameRC_detachHorizontal (m : Matrix) (i : Nat) : sameRC (m.detachHorizontal i) m :=
  sameRC_trans (sameRC_setL _ _ _) (sameRC_setR m _ _)

theorem sameRC_reattachHorizontal (m : Matrix) (i : Nat) : sameRC (m.reattachHorizontal i) m :=
  sameRC_trans (sameRC_setL _ _ _) (sameRC_setR m _ _)

theorem sameRC_coverRowGo : ∀ (fuel : Nat) (m : Matrix) (start cur : Nat),
    sameRC (coverRowGo fuel m start cur) m := by
  intro fuel
  induction fuel with
  | zero => intro m s c; exact sameRC_refl m
  | succ n ih =>
    intro m s c
    rw [coverRowGo]
    dsimp only
    split
    · exact sameRC_refl m
    · exact sameRC_trans (ih _ _ _)
        (sameRC_trans (sameRC_updateSize _ _ _) (sameRC_detachVertical m _))

theorem sameRC_coverColGo : ∀ (fuel : Nat) (m : Matrix) (start cur : Nat),
    sameRC (coverColGo fuel m start cur) m := by
  intro fuel
  induction fuel with
  | zero => intro m s c; exact sameRC_refl m
  | succ n ih =>
    intro m s c
    rw [coverColGo]
    split
    · exact sameRC_refl m
    · exact sameRC_trans (ih _ _ _) (sameRC_coverRowGo _ m _ _)

theorem sameRC_cover (m : Matrix) (col : Nat) : sameRC (m.cover col) m :=
  sameRC_trans (sameRC_coverColGo _ _ _ _) (sameRC_detachHorizontal m col)

theorem sameRC_uncoverRowGo : ∀ (fuel : Nat) (m : Matrix) (start cur : Nat),
    sameRC (uncoverRowGo fuel m start cur) m := by
  intro fuel
  induction fuel with
  | zero => intro m s c; exact sameRC_refl m
  | succ n ih =>
    intro m s c
    rw [uncoverRowGo]
    dsimp only
    split
    · exact sameRC_refl m
    · exact sameRC_trans (ih _ _ _)
        (sameRC_trans (sameRC_updateSize _ _ _) (sameRC_reattachVertical m _))

theorem sameRC_uncoverColGo : ∀ (fuel : Nat) (m : Matrix) (start cur : Nat),
    sameRC (uncoverColGo fuel m start cur) m := by
  intro fuel
  induction fuel with
  | zero => intro m s c; exact sameRC_refl m
  | succ n ih =>
    intro m s c
    rw [uncoverColGo]
    split
    · exact sameRC_refl m
    · exact sameRC_trans (ih _ _ _) (sameRC_uncoverRowGo _ m _ _)

theorem sameRC_uncover (m : Matrix) (col : Nat) : sameRC (m.uncover col) m :=
  sameRC_trans (sameRC_reattachHorizontal _ col) (sameRC_uncoverColGo _ m _ _)

theorem sameRC_coverJsGo : ∀ (fuel : Nat) (m : Matrix) (start cur : Nat),
    sameRC (coverJsGo fuel m start cur) m := by
  intro fuel
  induction fuel with
  | zero => intro m s c; exact sameRC_refl m
  | succ n ih =>
    intro m s c
    rw [coverJsGo]
    split
    · exact sameRC_refl m
    · exact sameRC_trans (ih _ _ _) (sameRC_cover m _)

theorem sameRC_uncoverJsGo : ∀ (fuel : Nat) (m : Matrix) (start cur : Nat),
    sameRC (uncoverJsGo fuel m start cur) m := by
  intro fuel
  induction fuel with
  | zero => intro m s c; exact sameRC_refl m
  | succ n ih =>
    intro m s c
    rw [uncoverJsGo]
    split
    · exact sameRC_refl m
    · exact sameRC_trans (ih _ _ _) (sameRC_uncover m _)

/-! ### Field-level effect algebra of the pointer writes -/

theorem Matrix.total_modifyNode (m : Matrix) (i : Nat) (f : Node → Node) :
    (m.modifyNode i f).total = m.total := by
  unfold Matrix.total
  rw [m.modifyNode_headers_length i f, m.modifyNode_nodes_length i f]

theorem Matrix.total_setU (m : Matrix) (i v : Nat) : (m.setU i v).total = m.total :=
  m.total_modifyNode i _

theorem Matrix.total_setD (m : Matrix) (i v : Nat) : (m.setD i v).total = m.total :=
  m.total_modifyNode i _

theorem Matrix.total_setL (m : Matrix) (i v : Nat) : (m.setL i v).total = m.total :=
  m.total_modifyNode i _

theorem Matrix.total_setR (m : Matrix) (i v : Nat) : (m.setR i v).total = m.total :=
  m.total_modifyNode i _

theorem Matrix.total_updateSize (m : Matrix) (c : Nat) (δ : Int) :
    (m.updateSize c δ).total = m.total := by
  unfold Matrix.total
  rw [m.updateSize_headers_length c δ, Matrix.updateSize_nodes]

theorem Matrix.size_modifyNode (m : Matrix) (i : Nat) (f : Node → Node) (c : Nat) :
    (m.modifyNode i f).size c = m.size c := by
  unfold Matrix.modifyNode Matrix.size
  by_cases hih : i < m.headers.length
  · rw [if_pos hih]
    dsimp only
    rw [modifyIdx_get?]
    by_cases hc : c = i
    · rw [if_pos hc]
      cases m.headers.get? c <;> rfl
    · rw [if_neg hc]
  · rw [if_neg hih]

theorem Matrix.get_setU (m : Matrix) (i v j : Nat) :
    (m.setU i v).get j = if j = i ∧ i < m.total then { m.get j with u := v } else m.get j := by
  rw [Matrix.setU, m.get_modifyNode]
  by_cases h : j = i ∧ i < m.total
  · rw [if_pos h, if_pos h, h.1]
  · rw [if_neg h, if_neg h]

theorem Matrix.get_setD (m : Matrix) (i v j : Nat) :
    (m.setD i v).get j = if j = i ∧ i < m.total then { m.get j with d := v } else m.get j := by
  rw [Matrix.setD, m.get_modifyNode]
  by_cases h : j = i ∧ i < m.total
  · rw [if_pos h, if_pos h, h.1]
  · rw [if_neg h, if_neg h]

theorem Matrix.get_setL (m : Matrix) (i v j : Nat) :
    (m.setL i v).get j = if j = i ∧ i < m.total then { m.get j with l := v } else m.get j := by
  rw [Matrix.setL, m.get_modifyNode]
  by_cases h : j = i ∧ i < m.total
  · rw [if_pos h, if_pos h, h.1]
  · rw [if_neg h, if_neg h]

theorem Matrix.get_setR (m : Matrix) (i v j : Nat) :
    (m.setR i v).get j = if j = i ∧ i < m.total then { m.get j with r := v } else m.get j := by
  rw [Matrix.setR, m.get_modifyNode]
  by_cases h : j = i ∧ i < m.total
  · rw [if_pos h, if_pos h, h.1]
  · rw [if_neg h, if_neg h]

theorem setU_u (m : Matrix) (i v j : Nat) :
    ((m.setU i v).get j).u = if j = i ∧ i < m.total then v else (m.get j).u := by
  rw [Matrix.get_setU]; split <;> rfl

theorem setU_d (m : Matrix) (i v j : Nat) : ((m.setU i v).get j).d = (m.get j).d := by
  rw [Matrix.get_setU]; split <;> rfl

theorem setU_l (m : Matrix) (i v j : Nat) : ((m.setU i v).get j).l = (m.get j).l := by
  rw [Matrix.get_setU]; split <;> rfl

theorem setU_r (m : Matrix) (i v j : Nat) : ((m.setU i v).get j).r = (m.get j).r := by
  rw [Matrix.get_setU]; split <;> rfl

theorem setD_d (m : Matrix) (i v j : Nat) :
    ((m.setD i v).get j).d = if j = i ∧ i < m.total then v else (m.get j).d := by
  rw [Matrix.get_setD]; split <;> rfl

theorem setD_u (m : Matrix) (i v j : Nat) : ((m.setD i v).get j).u = (m.get j).u := by
  rw [Matrix.get_setD]; split <;> rfl

theorem setD_l (m : Matrix) (i v j : Nat) : ((m.setD i v).get j).l = (m.get j).l := by
  rw [Matrix.get_setD]; split <;> rfl

theorem setD_r (m : Matrix) (i v j : Nat) : ((m.setD i v).get j).r = (m.get j).r := by
  rw [Matrix.get_setD]; split <;> rfl

theorem setL_l (m : Matrix) (i v j : Nat) :
    ((m.setL i v).get j).l = if j = i ∧ i < m.total then v else (m.get j).l := by
  rw [Matrix.get_setL]; split <;> rfl

theorem setL_u (m : Matrix) (i v j : Nat) : ((m.setL i v).get j).u = (m.get j).u := by
  rw [Matrix.get_setL]; split <;> rfl

theorem setL_d (m : Matrix) (i v j : Nat) : ((m.setL i v).get j).d = (m.get j).d := by
  rw [Matrix.get_setL]; split <;> rfl

theorem setL_r (m : Matrix) (i v j : Nat) : ((m.setL i v).get j).r = (m.get j).r := by
  rw [Matrix.get_setL]; split <;> rfl

theorem setR_r (m : Matrix) (i v j : Nat) :
    ((m.setR i v).get j).r = if j = i ∧ i < m.total then v else (m.get j).r := by
  rw [Matrix.get_setR]; split <;> rfl

theorem setR_u (m : Matrix) (i v j : Nat) : ((m.setR i v).get j).u = (m.get j).u := by
  rw [Matrix.get_setR]; split <;> rfl

theorem setR_d (m : Matrix) (i v j : Nat) : ((m.setR i v).get j).d = (m.get j).d := by
  rw [Matrix.get_setR]; split <;> rfl

theorem setR_l (m : Matrix) (i v j : Nat) : ((m.setR i v).get j).l = (m.get j).l := by
  rw [Matrix.get_setR]; split <;> rfl

theorem detachV_u (m : Matrix) (x j : Nat) :
    ((m.detachVertical x).get j).u =
      if j = (m.get x).d ∧ (m.get x).d < m.total then (m.get x).u else (m.get j).u := by
  show (((m.setD (m.get x).u (m.get x).d).setU (m.get x).d (m.get x).u).get j).u = _
  rw [setU_u, Matrix.total_setD, setD_u]

theorem detachV_d (m : Matrix) (x j : Nat) :
    ((m.detachVertical x).get j).d =
      if j = (m.get x).u ∧ (m.get x).u < m.total then (m.get x).d else (m.get j).d := by
  show (((m.setD (m.get x).u (m.get x).d).setU (m.get x).d (m.get x).u).get j).d = _
  rw [setU_d, setD_d]

theorem detachV_l (m : Matrix) (x j : Nat) :
    ((m.detachVertical x).get j).l = (m.get j).l := by
  show (((m.setD (m.get x).u (m.get x).d).setU (m.get x).d (m.get x).u).get j).l = _
  rw [setU_l, setD_l]

theorem detachV_r (m : Matrix) (x j : Nat) :
    ((m.detachVertical x).get j).r = (m.get j).r := by
  show (((m.setD (m.get x).u (m.get x).d).setU (m.get x).d (m.get x).u).get j).r = _
  rw [setU_r, setD_r]

theorem reattachV_u (m : Matrix) (x j : Nat) :
    ((m.reattachVertical x).get j).u =
      if j = (m.get x).d ∧ (m.get x).d < m.total then x else (m.get j).u := by
  show (((m.setD (m.get x).u x).setU (m.get x).d x).get j).u = _
  rw [setU_u, Matrix.total_setD, setD_u]

theorem reattachV_d (m : Matrix) (x j : Nat) :
    ((m.reattachVertical x).get j).d =
      if j = (m.get x).u ∧ (m.get x).u < m.total then x else (m.get j).d := by
  show (((m.setD (m.get x).u x).setU (m.get x).d x).get j).d = _
  rw [setU_d, setD_d]

theorem reattachV_l (m : Matrix) (x j : Nat) :
    ((m.reattachVertical x).get j).l = (m.get j).l := by
  show (((m.setD (m.get x).u x).setU (m.get x).d x).get j).l = _
  rw [setU_l, setD_l]

theorem reattachV_r (m : Matrix) (x j : Nat) :
    ((m.reattachVertical x).get j).r = (m.get j).r := by
  show (((m.setD (m.get x).u x).setU (m.get x).d x).get j).r = _
  rw [setU_r, setD_r]

theorem detachH_l (m : Matrix) (x j : Nat) :
    ((m.detachHorizontal x).get j).l =
      if j = (m.get x).r ∧ (m.get x).r < m.total then (m.get x).l else (m.get j).l := by
  show (((m.setR (m.get x).l (m.get x).r).setL (m.get x).r (m.get x).l).get j).l = _
  rw [setL_l, Matrix.total_setR, setR_l]

theorem detachH_r (m : Matrix) (x j : Nat) :
    ((m.detachHorizontal x).get j).r =
      if j = (m.get x).l ∧ (m.get x).l < m.total then (m.get x).r else (m.get j).r := by
  show (((m.setR (m.get x).l (m.get x).r).setL (m.get x).r (m.get x).l).get j).r = _
  rw [setL_r, setR_r]

theorem detachH_u (m : Matrix) (x j : Nat) :
    ((m.detachHorizontal x).get j).u = (m.get j).u := by
  show (((m.setR (m.get x).l (m.get x).r).setL (m.get x).r (m.get x).l).get j).u = _
  rw [setL_u, setR_u]

theorem detachH_d (m : Matrix) (x j : Nat) :
    ((m.detachHorizontal x).get j).d = (m.get j).d := by
  show (((m.setR (m.get x).l (m.get x).r).setL (m.get x).r (m.get x).l).get j).d = _
  rw [setL_d, setR_d]

theorem reattachH_l (m : Matrix) (x j : Nat) :
    ((m.reattachHorizontal x).get j).l =
      if j = (m.get x).r ∧ (m.get x).r < m.total then x else (m.get j).l := by
  show (((m.setR (m.get x).l x).setL (m.get x).r x).get j).l = _
  rw [setL_l, Matrix.total_setR, setR_l]

theorem reattachH_r (m : Matrix) (x j : Nat) :
    ((m.reattachHorizontal x).get j).r =
      if j = (m.get x).l ∧ (m.get x).l < m.total then x else (m.get j).r := by
  show (((m.setR (m.get x).l x).setL (m.get x).r x).get j).r = _
  rw [setL_r, setR_r]

theorem reattachH_u (m : Matrix) (x j : Nat) :
    ((m.reattachHorizontal x).get j).u = (m.get j).u := by
  show (((m.setR (m.get x).l x).setL (m.get x).r x).get j).u = _
  rw [setL_u, setR_u]

theorem reattachH_d (m : Matrix) (x j : Nat) :
    ((m.reattachHorizontal x).get j).d = (m.get j).d := by
  show (((m.setR (m.get x).l x).setL (m.get x).r x).get j).d = _
  rw [setL_d, setR_d]

theorem size_detachV (m : Matrix) (x c : Nat) :
    (m.detachVertical x).size c = m.size c := by
  show (((m.setD (m.get x).u (m.get x).d).setU (m.get x).d (m.get x).u)).size c = _
  rw [Matrix.setU, Matrix.size_modifyNode, Matrix.setD, Matrix.size_modifyNode]

theorem size_reattachV (m : Matrix) (x c : Nat) :
    (m.reattachVertical x).size c = m.size c := by
  show (((m.setD (m.get x).u x).setU (m.get x).d x)).size c = _
  rw [Matrix.setU, Matrix.size_modifyNode, Matrix.setD, Matrix.size_modifyNode]

theorem size_detachH (m : Matrix) (x c : Nat) :
    (m.detachHorizontal x).size c = m.size c := by
  show (((m.setR (m.get x).l (m.get x).r).setL (m.get x).r (m.get x).l)).size c = _
  rw [Matrix.setL, Matrix.size_modifyNode, Matrix.setR, Matrix.size_modifyNode]

theorem size_reattachH (m : Matrix) (x c : Nat) :
    (m.reattachHorizontal x).size c = m.size c := by
  show (((m.setR (m.get x).l x).setL (m.get x).r x)).size c = _
  rw [Matrix.setL, Matrix.size_modifyNode, Matrix.setR, Matrix.size_modifyNode]

theorem total_detachV (m : Matrix) (x : Nat) : (m.detachVertical x).total = m.total := by
  show (((m.setD (m.get x).u (m.get x).d).setU (m.get x).d (m.get x).u)).total = _
  rw [Matrix.total_setU, Matrix.total_setD]

theorem total_reattachV (m : Matrix) (x : Nat) : (m.reattachVertical x).total = m.total := by
  show (((m.setD (m.get x).u x).setU (m.get x).d x)).total = _
  rw [Matrix.total_setU, Matrix.total_setD]

theorem total_detachH (m : Matrix) (x : Nat) : (m.detachHorizontal x).total = m.total := by
  show (((m.setR (m.get x).l (m.get x).r).setL (m.get x).r (m.get x).l)).total = _
  rw [Matrix.total_setL, Matrix.total_setR]

theorem total_reattachH (m : Matrix) (x : Nat) : (m.reattachHorizontal x).total = m.total := by
  show (((m.setR (m.get x).l x).setL (m.get x).r x)).total = _
  rw [Matrix.total_setL, Matrix.total_setR]

theorem get_dstep (m : Matrix) (j x : Nat) :
    (dstep m j).get x = (m.detachVertical j).get x := by
  show ((m.detachVertical j).updateSize _ _).get x = _
  rw [Matrix.get_updateSize]

theorem get_rstep (m : Matrix) (j x : Nat) :
    (rstep m j).get x = (m.reattachVertical j).get x := by
  show ((m.reattachVertical j).updateSize _ _).get x = _
  rw [Matrix.get_updateSize]

theorem total_dstep (m : Matrix) (j : Nat) : (dstep m j).total = m.total := by
  show ((m.detachVertical j).updateSize _ _).total = _
  rw [Matrix.total_updateSize, total_detachV]

theorem total_rstep (m : Matrix) (j : Nat) : (rstep m j).total = m.total := by
  show ((m.reattachVertical j).updateSize _ _).total = _
  rw [Matrix.total_updateSize, total_reattachV]

/-! ### Doubly-linked path lemmas -/

theorem getLastD_mem_cons {α : Type} : ∀ (xs : List α) (a : α), xs.getLastD a ∈ a :: xs := by
  intro xs
  induction xs with
  | nil => intro a; exact List.mem_cons_self _ _
  | cons x xs ih =>
    intro a
    rw [List.getLastD_cons]
    rcases List.mem_cons.mp (ih x) with h | h
    · rw [h]
      exact List.mem_cons_of_mem _ (List.mem_cons_self _ _)
    · exact List.mem_cons_of_mem _ (List.mem_cons_of_mem _ h)

theorem headD_mem_cons {α : Type} : ∀ (xs : List α) (b : α), xs.headD b ∈ b :: xs := by
  intro xs b
  cases xs with
  | nil => exact List.mem_cons_self _ _
  | cons x xs => simp [List.headD]

theorem getLastD_concat {α : Type} (xs : List α) (q a : α) :
    (xs ++ [q]).getLastD a = q := by
  induction xs generalizing a with
  | nil => rfl
  | cons x xs ih => rw [List.cons_append, List.getLastD_cons, ih]

theorem dPath_congr {m m' : Matrix} :
    ∀ {a b : Nat} {xs : List Nat},
      (∀ x, x ∈ a :: xs → (m'.get x).d = (m.get x).d) →
      (∀ x, x ∈ xs ++ [b] → (m'.get x).u = (m.get x).u) →
      dPath m a xs b → dPath m' a xs b := by
  intro a b xs
  induction xs generalizing a with
  | nil =>
    intro hd hu h
    exact ⟨by rw [hd a (by simp)]; exact h.1, by rw [hu b (by simp)]; exact h.2⟩
  | cons x xs ih =>
    intro hd hu h
    refine ⟨⟨by rw [hd a (by simp)]; exact h.1.1, by rw [hu x (by simp)]; exact h.1.2⟩, ?_⟩
    exact ih (fun y hy => hd y (by simp at hy ⊢; tauto))
      (fun y hy => hu y (by simp at hy ⊢; tauto)) h.2

theorem dPath_append {m : Matrix} {x b : Nat} :
    ∀ {a : Nat} (xs : List Nat) {ys : List Nat},
      dPath m a (xs ++ x :: ys) b ↔ dPath m a xs x ∧ dPath m x ys b := by
  intro a xs
  induction xs generalizing a with
  | nil => intro ys; exact Iff.rfl
  | cons z zs ih =>
    intro ys
    rw [List.cons_append]
    show (dlink m a z ∧ dPath m z (zs ++ x :: ys) b) ↔ _
    rw [ih]
    show _ ↔ ((dlink m a z ∧ dPath m z zs x) ∧ _)
    tauto

theorem dPath_lastlink {m : Matrix} :
    ∀ {a b : Nat} (xs : List Nat), dPath m a xs b → dlink m (xs.getLastD a) b := by
  intro a b xs
  induction xs generalizing a with
  | nil => intro h; exact h
  | cons x xs ih =>
    intro h
    rw [List.getLastD_cons]
    exact ih h.2

theorem dPath_headlink {m : Matrix} :
    ∀ {a b : Nat} (xs : List Nat), dPath m a xs b → dlink m a (xs.headD b) := by
  intro a b xs h
  cases xs with
  | nil => exact h
  | cons x xs => exact h.1

/-- Detaching a mid node from a represented vertical cycle leaves the
cycle without it. -/
theorem detachV_dPath {m : Matrix} {a j : Nat} {xs ys : List Nat}
    (h : dPath m a (xs ++ j :: ys) a)
    (hnd : (a :: (xs ++ j :: ys)).Nodup)
    (hbound : ∀ x ∈ a :: (xs ++ j :: ys), x < m.total) :
    dPath (m.detachVertical j) a (xs ++ ys) a := by
  obtain ⟨h₁, h₂⟩ := (dPath_append xs).mp h
  have hPj : dlink m (xs.getLastD a) j := dPath_lastlink xs h₁
  have hjN : dlink m j (ys.headD a) := dPath_headlink ys h₂
  have hju : (m.get j).u = xs.getLastD a := hPj.2
  have hjd : (m.get j).d = ys.headD a := hjN.1
  have hPmem : xs.getLastD a ∈ a :: xs := getLastD_mem_cons xs a
  have hNmem : ys.headD a ∈ a :: ys := headD_mem_cons ys a
  have hPb : xs.getLastD a < m.total := by
    rcases List.mem_cons.mp hPmem with hh | hh
    · rw [hh]
      exact hbound a (List.mem_cons_self _ _)
    · exact hbound _ (List.mem_cons_of_mem _ (List.mem_append.mpr (Or.inl hh)))
  have hNb : ys.headD a < m.total := by
    rcases List.mem_cons.mp hNmem with hh | hh
    · rw [hh]
      exact hbound a (List.mem_cons_self _ _)
    · exact hbound _ (List.mem_cons_of_mem _ (List.mem_append.mpr
        (Or.inr (List.mem_cons_of_mem _ hh))))
  have hd' : ∀ x, (((m.detachVertical j).get x).d) =
      if x = xs.getLastD a then ys.headD a else (m.get x).d := by
    intro x
    rw [detachV_d, hju, hjd]
    by_cases hx : x = xs.getLastD a
    · rw [if_pos ⟨hx, hPb⟩, if_pos hx]
    · rw [if_neg (by tauto), if_neg hx]
  have hu' : ∀ x, (((m.detachVertical j).get x).u) =
      if x = ys.headD a then xs.getLastD a else (m.get x).u := by
    intro x
    rw [detachV_u, hju, hjd]
    by_cases hx : x = ys.headD a
    · rw [if_pos ⟨hx, hNb⟩, if_pos hx]
    · rw [if_neg (by tauto), if_neg hx]
  -- distinctness facts
  rw [List.nodup_cons] at hnd
  have haxs : a ∉ xs := fun hh => hnd.1 (List.mem_append.mpr (Or.inl hh))
  have haj : a ≠ j := fun hh =>
    hnd.1 (List.mem_append.mpr (Or.inr (hh ▸ List.mem_cons_self _ _)))
  have hays : a ∉ ys := fun hh =>
    hnd.1 (List.mem_append.mpr (Or.inr (List.mem_cons_of_mem _ hh)))
  have hd2 := List.nodup_append.mp hnd.2
  have hxsnd : xs.Nodup := hd2.1
  have hjys : j ∉ ys := (List.nodup_cons.mp hd2.2.1).1
  have hysnd : ys.Nodup := (List.nodup_cons.mp hd2.2.1).2
  have hjxs : j ∉ xs := fun hh => hd2.2.2 hh (List.mem_cons_self _ _)
  have hxsys : ∀ x ∈ xs, x ∉ ys := fun x hx hy => hd2.2.2 hx (List.mem_cons_of_mem _ hy)
  cases ys with
  | nil =>
    rw [show List.headD ([] : List Nat) a = a from rfl] at hd' hu' hNb
    rcases List.eq_nil_or_concat xs with rfl | ⟨xs', q, rfl⟩
    · rw [show List.getLastD ([] : List Nat) a = a from rfl] at hd' hu' hPb
      show dlink _ a a
      constructor
      · rw [hd' a, if_pos rfl]
      · rw [hu' a, if_pos rfl]
    · simp only [List.concat_eq_append] at *
      rw [List.append_nil]
      rw [getLastD_concat] at hd' hu' hPb
      have hqa : q ≠ a := by
        intro hh
        exact haxs (hh ▸ List.mem_append.mpr (Or.inr (by simp)))
      have hqxs' : q ∉ xs' := by
        rw [List.nodup_append] at hxsnd
        intro hh
        exact hxsnd.2.2 hh (by simp)
      refine (dPath_append xs').mpr ⟨?_, ?_⟩
      · obtain ⟨g₁, _⟩ := (dPath_append xs').mp h₁
        refine dPath_congr (fun x hx => ?_) (fun x hx => ?_) g₁
        · rw [hd' x, if_neg ?_]
          intro hxq
          rw [hxq] at hx
          rcases List.mem_cons.mp hx with hh | hh
          · exact hqa hh
          · exact hqxs' hh
        · rw [hu' x, if_neg ?_]
          intro hxa
          rw [hxa] at hx
          refine haxs (List.mem_append.mpr ?_)
          rcases List.mem_append.mp hx with hh | hh
          · exact Or.inl hh
          · exact Or.inr hh
      · show dlink _ q a
        constructor
        · rw [hd' q, if_pos rfl]
        · rw [hu' a, if_pos rfl]
  | cons y ys' =>
    rw [show List.headD (y :: ys') a = y from rfl] at hd' hu' hNb
    have hya : y ≠ a := fun hh => hays (hh ▸ List.mem_cons_self _ _)
    have hyxs : y ∉ xs := fun hh => hxsys y hh (List.mem_cons_self _ _)
    have hyys' : y ∉ ys' := by
      rw [List.nodup_cons] at hysnd
      exact hysnd.1
    show dPath _ a (xs ++ y :: ys') a
    refine (dPath_append xs).mpr ⟨?_, ?_⟩
    · rcases List.eq_nil_or_concat xs with rfl | ⟨xs', q, rfl⟩
      · rw [show List.getLastD ([] : List Nat) a = a from rfl] at hd' hu' hPb
        show dlink _ a y
        constructor
        · rw [hd' a, if_pos rfl]
        · rw [hu' y, if_pos rfl]
      · simp only [List.concat_eq_append] at *
        rw [getLastD_concat] at hd' hu' hPb
        have hqa : q ≠ a := by
          intro hh
          exact haxs (hh ▸ List.mem_append.mpr (Or.inr (by simp)))
        have hqxs' : q ∉ xs' := by
          rw [List.nodup_append] at hxsnd
          intro hh
          exact hxsnd.2.2 hh (by simp)
        have hyq : y ≠ q := by
          intro hh
          exact hyxs (hh ▸ List.mem_append.mpr (Or.inr (by simp)))
        refine (dPath_append xs').mpr ⟨?_, ?_⟩
        · obtain ⟨g₁, _⟩ := (dPath_append xs').mp h₁
          refine dPath_congr (fun x hx => ?_) (fun x hx => ?_) g₁
          · rw [hd' x, if_neg ?_]
            intro hxq
            rw [hxq] at hx
            rcases List.mem_cons.mp hx with hh | hh
            · exact hqa hh
            · exact hqxs' hh
          · rw [hu' x, if_neg ?_]
            intro hxy
            rw [hxy] at hx
            rcases List.mem_append.mp hx with hh | hh
            · exact hyxs (List.mem_append.mpr (Or.inl hh))
            · simp only [List.mem_singleton] at hh
              exact hyq hh
        · show dlink _ q y
          constructor
          · rw [hd' q, if_pos rfl]
          · rw [hu' y, if_pos rfl]
    · refine dPath_congr (fun x hx => ?_) (fun x hx => ?_) h₂.2
      · rw [hd' x, if_neg ?_]
        intro hxP
        rw [hxP] at hx
        rcases List.mem_cons.mp hPmem with hh | hh
        · rw [hh] at hx
          rcases List.mem_cons.mp hx with h3 | h3
          · exact hya h3.symm
          · exact hays (List.mem_cons_of_mem _ h3)
        · rcases List.mem_cons.mp hx with h3 | h3
          · exact hyxs (h3 ▸ hh)
          · exact hxsys _ hh (List.mem_cons_of_mem _ h3)
      · rw [hu' x, if_neg ?_]
        intro hxy
        rw [hxy] at hx
        rcases List.mem_append.mp hx with hh | hh
        · exact hyys' hh
        · simp only [List.mem_singleton] at hh
          exact hya hh

/-! ### Extensionality and the local detach/reattach inverse -/

theorem Node.ext_fields {n₁ n₂ : Node} (h1 : n₁.row = n₂.row) (h2 : n₁.col = n₂.col)
    (h3 : n₁.u = n₂.u) (h4 : n₁.d = n₂.d) (h5 : n₁.l = n₂.l) (h6 : n₁.r = n₂.r) :
    n₁ = n₂ := by
  cases n₁
  cases n₂
  dsimp at h1 h2 h3 h4 h5 h6
  rw [h1, h2, h3, h4, h5, h6]

theorem listGet?_eq_none {α : Type} (l : List α) (n : Nat) (h : l.length ≤ n) :
    l.get? n = none := by
  cases hc : l.get? n with
  | none => rfl
  | some x =>
    have := (listGet?_isSome l n).mp (by rw [hc]; rfl)
    omega

theorem Matrix.size_eq_of_get? {m : Matrix} {c : Nat} {h : Header}
    (hc : m.headers.get? c = some h) : m.size c = h.size := by
  unfold Matrix.size
  rw [hc]
  rfl

theorem Matrix.get_header {m : Matrix} {c : Nat} {h : Header}
    (hc : m.headers.get? c = some h) : m.get c = h.node := by
  have hlt : c < m.headers.length := by
    by_contra hge
    rw [listGet?_eq_none _ _ (by omega)] at hc
    exact Option.noConfusion hc
  unfold Matrix.get Matrix.lookup?
  rw [if_pos hlt, hc]
  rfl

theorem Matrix.eq_ext {m₁ m₂ : Matrix}
    (h₁ : m₁.headers.length = m₂.headers.length)
    (h₂ : m₁.nodes.length = m₂.nodes.length)
    (hs : ∀ c, m₁.size c = m₂.size c)
    (hg : ∀ i, m₁.get i = m₂.get i) : m₁ = m₂ := by
  have hh : m₁.headers = m₂.headers := by
    apply List.ext
    intro n
    by_cases hn : n < m₁.headers.length
    · obtain ⟨x₁, hx₁⟩ := Option.isSome_iff_exists.mp ((listGet?_isSome _ _).mpr hn)
      obtain ⟨x₂, hx₂⟩ := Option.isSome_iff_exists.mp
        ((listGet?_isSome _ _).mpr (h₁ ▸ hn))
      rw [hx₁, hx₂]
      have hsz : x₁.size = x₂.size := by
        rw [← Matrix.size_eq_of_get? hx₁, ← Matrix.size_eq_of_get? hx₂]
        exact hs n
      have hnd : x₁.node = x₂.node := by
        rw [← Matrix.get_header hx₁, ← Matrix.get_header hx₂]
        exact hg n
      cases x₁
      cases x₂
      dsimp at hsz hnd
      rw [hsz, hnd]
    · rw [listGet?_eq_none _ _ (by omega), listGet?_eq_none _ _ (by omega)]
  have hn : m₁.nodes = m₂.nodes := by
    apply List.ext
    intro k
    by_cases hk : k < m₁.nodes.length
    · have e₁ : m₁.lookup? (m₁.headers.length + k) = m₁.nodes.get? k := by
        unfold Matrix.lookup?
        rw [if_neg (by omega), Nat.add_sub_cancel_left]
      have e₂ : m₂.lookup? (m₁.headers.length + k) = m₂.nodes.get? k := by
        unfold Matrix.lookup?
        rw [if_neg (by omega), h₁, Nat.add_sub_cancel_left]
      obtain ⟨x₁, hx₁⟩ := Option.isSome_iff_exists.mp ((listGet?_isSome _ _).mpr hk)
      obtain ⟨x₂, hx₂⟩ := Option.isSome_iff_exists.mp
        ((listGet?_isSome _ _).mpr (h₂ ▸ hk))
      rw [hx₁, hx₂]
      have := hg (m₁.headers.length + k)
      unfold Matrix.get at this
      rw [e₁, e₂, hx₁, hx₂] at this
      exact congrArg some this
    · rw [listGet?_eq_none _ _ (by omega), listGet?_eq_none _ _ (by omega)]
  cases m₁
  cases m₂
  dsimp at hh hn
  rw [hh, hn]

theorem modifyIdx_comp {α : Type} (f g : α → α) (n : Nat) (xs : List α) :
    modifyIdx f n (modifyIdx g n xs) = modifyIdx (fun x => f (g x)) n xs := by
  induction xs generalizing n with
  | nil => cases n <;> rfl
  | cons x xs ih => cases n <;> simp [modifyIdx, ih]

theorem modifyIdx_congr_at {α : Type} (f g : α → α) (n : Nat) (xs : List α)
    (h : ∀ x, xs.get? n = some x → f x = g x) :
    modifyIdx f n xs = modifyIdx g n xs := by
  induction xs generalizing n with
  | nil => cases n <;> rfl
  | cons x xs ih =>
    cases n with
    | zero => simp [modifyIdx, h x rfl]
    | succ n => simp [modifyIdx, ih n (fun y hy => h y hy)]

theorem modifyIdx_id {α : Type} (n : Nat) (xs : List α) :
    modifyIdx (fun x => x) n xs = xs := by
  induction xs generalizing n with
  | nil => cases n <;> rfl
  | cons x xs ih => cases n <;> simp [modifyIdx, ih]

theorem wrap_cancel (s : Nat) (h : s < 2 ^ 32) :
    ((((((s : Int) + (-1)) % (2 ^ 32 : Int)).toNat : Int) + 1) % (2 ^ 32 : Int)).toNat = s := by
  omega

theorem size_updateSize (m : Matrix) (c : Nat) (δ : Int) (k : Nat) :
    (m.updateSize c δ).size k =
      if k = c ∧ c < m.headers.length
      then (((m.size c : Int) + δ) % (2 ^ 32 : Int)).toNat
      else m.size k := by
  unfold Matrix.updateSize Matrix.size
  dsimp only
  rw [modifyIdx_get?]
  by_cases hk : k = c
  · subst hk
    by_cases hc : k < m.headers.length
    · obtain ⟨x, hx⟩ := Option.isSome_iff_exists.mp ((listGet?_isSome _ _).mpr hc)
      rw [if_pos rfl, if_pos ⟨rfl, hc⟩, hx]
      rfl
    · rw [if_pos rfl, if_neg (by tauto), listGet?_eq_none _ _ (by omega)]
      rfl
  · rw [if_neg hk, if_neg (by tauto)]

theorem updateSize_cancel (m : Matrix) (c : Nat) (h : m.size c < 2 ^ 32) :
    (m.updateSize c (-1)).updateSize c 1 = m := by
  refine Matrix.eq_ext ?_ rfl ?_ ?_
  · rw [Matrix.updateSize_headers_length, Matrix.updateSize_headers_length]
  · intro k
    rw [size_updateSize, Matrix.updateSize_headers_length]
    by_cases hk : k = c ∧ c < m.headers.length
    · rw [if_pos hk, size_updateSize, if_pos ⟨rfl, hk.2⟩, hk.1]
      omega
    · rw [if_neg hk, size_updateSize, if_neg hk]
  · intro i
    rw [Matrix.get_updateSize, Matrix.get_updateSize]

set_option maxHeartbeats 1000000 in
/-- `reattach_vertical` followed by `update_size(+1)` exactly undoes
`detach_vertical` followed by `update_size(-1)` on a properly linked
node: the Dancing Links local inverse. -/
theorem rstep_dstep (m : Matrix) (j : Nat)
    (hj : j < m.total)
    (hju : (m.get j).u < m.total) (hjd : (m.get j).d < m.total)
    (hprev : (m.get ((m.get j).u)).d = j) (hnext : (m.get ((m.get j).d)).u = j)
    (hne₁ : (m.get j).u ≠ j) (hne₂ : (m.get j).d ≠ j)
    (hsize : m.size ((m.get j).col) < 2 ^ 32) :
    rstep (dstep m j) j = m := by
  have hrc : sameRC (dstep m j) m := by
    show sameRC ((m.detachVertical j).updateSize _ _) m
    exact sameRC_trans (sameRC_updateSize _ _ _) (sameRC_detachVertical m j)
  have hju' : ((dstep m j).get j).u = (m.get j).u := by
    rw [get_dstep, detachV_u, if_neg (by tauto)]
  have hjd' : ((dstep m j).get j).d = (m.get j).d := by
    rw [get_dstep, detachV_d, if_neg (by tauto)]
  have htot : (dstep m j).total = m.total := total_dstep m j
  have hgu : ∀ x, ((dstep m j).get x).u =
      if x = (m.get j).d ∧ (m.get j).d < m.total then (m.get j).u else (m.get x).u := by
    intro x
    rw [get_dstep, detachV_u]
  have hgd : ∀ x, ((dstep m j).get x).d =
      if x = (m.get j).u ∧ (m.get j).u < m.total then (m.get j).d else (m.get x).d := by
    intro x
    rw [get_dstep, detachV_d]
  have hgl : ∀ x, ((dstep m j).get x).l = (m.get x).l := fun x => by
    rw [get_dstep, detachV_l]
  have hgr : ∀ x, ((dstep m j).get x).r = (m.get x).r := fun x => by
    rw [get_dstep, detachV_r]
  have hsz : ∀ k, (dstep m j).size k =
      if k = (m.get j).col ∧ (m.get j).col < m.headers.length
      then (((m.size ((m.get j).col) : Int) + (-1)) % (2 ^ 32 : Int)).toNat
      else m.size k := by
    intro k
    show ((m.detachVertical j).updateSize ((m.detachVertical j).indexToColumn j) (-1)).size k = _
    have hcolx : ((m.detachVertical j).indexToColumn j) = (m.get j).col :=
      (sameRC_detachVertical m j).2.2 j |>.2
    rw [hcolx, size_updateSize, (sameRC_detachVertical m j).1]
    simp only [size_detachV]
  have hrcc : ∀ x, ((dstep m j).get x).row = (m.get x).row ∧
      ((dstep m j).get x).col = (m.get x).col := hrc.2.2
  have hlens₁ : (dstep m j).headers.length = m.headers.length := hrc.1
  have hlens₂ : (dstep m j).nodes.length = m.nodes.length := hrc.2.1
  generalize hM : dstep m j = M
  rw [hM] at hju' hjd' htot hgu hgd hgl hgr hsz hrcc hlens₁ hlens₂
  show (M.reattachVertical j).updateSize ((M.reattachVertical j).indexToColumn j) 1 = m
  refine Matrix.eq_ext ?_ ?_ ?_ ?_
  · rw [Matrix.updateSize_headers_length, (sameRC_reattachVertical M j).1, hlens₁]
  · rw [Matrix.updateSize_nodes]
    exact (sameRC_reattachVertical M j).2.1.trans hlens₂
  · intro c
    have hcolj : ((M.reattachVertical j).indexToColumn j) = (m.get j).col := by
      show ((M.reattachVertical j).get j).col = _
      rw [(sameRC_reattachVertical M j).2.2 j |>.2]
      exact (hrcc j).2
    rw [hcolj, size_updateSize, (sameRC_reattachVertical M j).1, hlens₁]
    simp only [size_reattachV]
    by_cases hc : c = (m.get j).col ∧ (m.get j).col < m.headers.length
    · rw [if_pos hc, hsz, if_pos ⟨rfl, hc.2⟩, hc.1]
      exact wrap_cancel _ hsize
    · rw [if_neg hc, hsz, if_neg hc]
  · intro x
    rw [Matrix.get_updateSize]
    refine Node.ext_fields ?_ ?_ ?_ ?_ ?_ ?_
    · rw [(sameRC_reattachVertical M j).2.2 x |>.1, (hrcc x).1]
    · rw [(sameRC_reattachVertical M j).2.2 x |>.2, (hrcc x).2]
    · rw [reattachV_u, hjd', htot]
      by_cases hx : x = (m.get j).d
      · rw [if_pos ⟨hx, hjd⟩, hx]
        exact hnext.symm
      · rw [if_neg (by tauto), hgu, if_neg (by tauto)]
    · rw [reattachV_d, hju', htot]
      by_cases hx : x = (m.get j).u
      · rw [if_pos ⟨hx, hju⟩, hx]
        exact hprev.symm
      · rw [if_neg (by tauto), hgd, if_neg (by tauto)]
    · rw [reattachV_l, hgl]
    · rw [reattachV_r, hgr]

theorem solveGoF_rel {T₁ T₂ σ₁ σ₂ : Type} (VB : T₁ → T₂ → Prop) (R : σ₁ → σ₂ → Prop)
    (m0 : Matrix)
    (recur₁ : Matrix → List Nat → σ₁ → SRes T₁ σ₁)
    (recur₂ : Matrix → List Nat → σ₂ → SRes T₂ σ₂)
    (hrec : ∀ mm sol cs₁ cs₂, sameRC mm m0 → R cs₁ cs₂ →
      (recur₁ mm sol cs₁).m = (recur₂ mm sol cs₂).m ∧
      sameRC (recur₁ mm sol cs₁).m mm ∧
      (recur₁ mm sol cs₁).tr = (recur₂ mm sol cs₂).tr ∧
      R (recur₁ mm sol cs₁).cs (recur₂ mm sol cs₂).cs ∧
      oRel VB (recur₁ mm sol cs₁).res (recur₂ mm sol cs₂).res) :
    ∀ (wfuel : Nat) (m : Matrix) (sol : List Nat) (cs₁ : σ₁) (cs₂ : σ₂) (col cur : Nat),
      sameRC m m0 → R cs₁ cs₂ →
      (solveGoF recur₁ wfuel m sol cs₁ col cur).m = (solveGoF recur₂ wfuel m sol cs₂ col cur).m ∧
      sameRC (solveGoF recur₁ wfuel m sol cs₁ col cur).m m ∧
      (solveGoF recur₁ wfuel m sol cs₁ col cur).tr = (solveGoF recur₂ wfuel m sol cs₂ col cur).tr ∧
      R (solveGoF recur₁ wfuel m sol cs₁ col cur).cs (solveGoF recur₂ wfuel m sol cs₂ col cur).cs ∧
      oRel VB (solveGoF recur₁ wfuel m sol cs₁ col cur).res
        (solveGoF recur₂ wfuel m sol cs₂ col cur).res := by
  intro wfuel
  induction wfuel with
  | zero =>
    intro m sol cs₁ cs₂ col cur hm hR
    exact ⟨rfl, sameRC_refl m, rfl, hR, trivial⟩
  | succ w ih =>
    intro m sol cs₁ cs₂ col cur hm hR
    rw [solveGoF, solveGoF]
    by_cases hexit : (m.get cur).d = col
    · rw [if_pos hexit, if_pos hexit]
      exact ⟨rfl, sameRC_uncover m col, rfl, hR, trivial⟩
    · rw [if_neg hexit, if_neg hexit]
      dsimp only
      have hm₁ : sameRC (coverJsGo (m.total + 1) m (m.get cur).d (m.get cur).d) m :=
        sameRC_coverJsGo _ _ _ _
      obtain ⟨hM, hS, hT, hR', hO⟩ :=
        hrec (coverJsGo (m.total + 1) m (m.get cur).d (m.get cur).d)
          (sol ++ [(m.get cur).d]) cs₁ cs₂ (sameRC_trans hm₁ hm) hR
      rcases hres₁ : (recur₁ (coverJsGo (m.total + 1) m (m.get cur).d (m.get cur).d)
          (sol ++ [(m.get cur).d]) cs₁).res with _ | t₁ <;>
        rcases hres₂ : (recur₂ (coverJsGo (m.total + 1) m (m.get cur).d (m.get cur).d)
          (sol ++ [(m.get cur).d]) cs₂).res with _ | t₂ <;>
        rw [hres₁, hres₂] at hO
      · dsimp only
        rw [← hM]
        have hm₂ : sameRC (uncoverJsGo
            ((recur₁ (coverJsGo (m.total + 1) m (m.get cur).d (m.get cur).d)
              (sol ++ [(m.get cur).d]) cs₁).m.total + 1)
            (recur₁ (coverJsGo (m.total + 1) m (m.get cur).d (m.get cur).d)
              (sol ++ [(m.get cur).d]) cs₁).m (m.get cur).d (m.get cur).d) m :=
          sameRC_trans (sameRC_uncoverJsGo _ _ _ _) (sameRC_trans hS hm₁)
        obtain ⟨gM, gS, gT, gR, gO⟩ := ih _ sol _ _ col (m.get cur).d
          (sameRC_trans hm₂ hm) hR'
        exact ⟨gM, sameRC_trans gS hm₂, by rw [hT, gT], gR, gO⟩
      · exact hO.elim
      · exact hO.elim
      · dsimp only
        exact ⟨hM, sameRC_trans hS hm₁, hT, hR', hO⟩

theorem solveInner_rel {T₁ T₂ σ₁ σ₂ : Type} (VB : T₁ → T₂ → Prop) (R : σ₁ → σ₂ → Prop)
    (m0 : Matrix)
    (f₁ : Matrix → σ₁ → List Nat → σ₁ × CFlow T₁)
    (f₂ : Matrix → σ₂ → List Nat → σ₂ × CFlow T₂)
    (hstep : ∀ mm cs₁ cs₂ sol, sameRC mm m0 → R cs₁ cs₂ →
      R (f₁ mm cs₁ sol).1 (f₂ mm cs₂ sol).1 ∧
      vRel VB (f₁ mm cs₁ sol).2 (f₂ mm cs₂ sol).2) :
    ∀ (rfuel : Nat) (m : Matrix) (sol : List Nat) (cs₁ : σ₁) (cs₂ : σ₂),
      sameRC m m0 → R cs₁ cs₂ →
      (solveInner f₁ rfuel m sol cs₁).m = (solveInner f₂ rfuel m sol cs₂).m ∧
      sameRC (solveInner f₁ rfuel m sol cs₁).m m ∧
      (solveInner f₁ rfuel m sol cs₁).tr = (solveInner f₂ rfuel m sol cs₂).tr ∧
      R (solveInner f₁ rfuel m sol cs₁).cs (solveInner f₂ rfuel m sol cs₂).cs ∧
      oRel VB (solveInner f₁ rfuel m sol cs₁).res (solveInner f₂ rfuel m sol cs₂).res := by
  intro rfuel
  induction rfuel with
  | zero =>
    intro m sol cs₁ cs₂ hm hR
    exact ⟨rfl, sameRC_refl m, rfl, hR, trivial⟩
  | succ n ih =>
    intro m sol cs₁ cs₂ hm hR
    rw [solveInner, solveInner]
    rcases hc : m.chooseCol with _ | col
    · dsimp only
      obtain ⟨hR', hV⟩ := hstep m cs₁ cs₂ sol hm hR
      rcases h₁ : f₁ m cs₁ sol with ⟨cs₁', v₁⟩
      rcases h₂ : f₂ m cs₂ sol with ⟨cs₂', v₂⟩
      rw [h₁, h₂] at hR' hV
      cases v₁ <;> cases v₂
      · dsimp only
        exact ⟨rfl, sameRC_refl m, rfl, hR', hV⟩
      · exact False.elim hV
      · exact False.elim hV
      · dsimp only
        exact ⟨rfl, sameRC_refl m, rfl, hR', trivial⟩
    · dsimp only
      obtain ⟨gM, gS, gT, gR, gO⟩ := solveGoF_rel VB R m0 _ _
        (fun mm ss c₁ c₂ h hRc => ih mm ss c₁ c₂ h hRc)
        ((m.cover col).total + 1) (m.cover col) sol cs₁ cs₂ col col
        (sameRC_trans (sameRC_cover m col) hm) hR
      exact ⟨gM, sameRC_trans gS (sameRC_cover m col), gT, gR, gO⟩

theorem vRel_refl {T : Type} (v : CFlow T) : vRel (fun a b => a = b) v v := by
  cases v
  · exact rfl
  · exact trivial

theorem oRel_eq {T : Type} {o₁ o₂ : Option T} (h : oRel (fun a b => a = b) o₁ o₂) :
    o₁ = o₂ := by
  cases o₁ <;> cases o₂
  · rfl
  · exact False.elim h
  · exact False.elim h
  · exact congrArg some h

/-- Any `solve_inner` run preserves layout and all `row`/`col` fields. -/
theorem solveInner_sameRC {T σ : Type} (f : Matrix → σ → List Nat → σ × CFlow T)
    (rfuel : Nat) (m : Matrix) (sol : List Nat) (cs : σ) :
    sameRC (solveInner f rfuel m sol cs).m m := by
  have h := solveInner_rel (fun a b => a = b) (fun (a b : σ) => a = b) m f f
    (fun mm cs₁ cs₂ sol₀ _ hcs => by subst hcs; exact ⟨rfl, vRel_refl _⟩)
    rfuel m sol cs cs (sameRC_refl m) rfl
  exact h.2.1

/-! ### The counting callback of `solve_count` -/

theorem solveGoF_count (recur : Matrix → List Nat → Nat → SRes Unit Nat)
    (hrec : ∀ mm sol c0, (recur mm sol c0).cs = c0 + (recur mm sol c0).tr.length ∧
      (recur mm sol c0).res = none) :
    ∀ (wfuel : Nat) (m : Matrix) (sol : List Nat) (c0 col cur : Nat),
      (solveGoF recur wfuel m sol c0 col cur).cs =
        c0 + (solveGoF recur wfuel m sol c0 col cur).tr.length ∧
      (solveGoF recur wfuel m sol c0 col cur).res = none := by
  intro wfuel
  induction wfuel with
  | zero => intro m sol c0 col cur; exact ⟨rfl, rfl⟩
  | succ w ih =>
    intro m sol c0 col cur
    rw [solveGoF]
    by_cases hexit : (m.get cur).d = col
    · rw [if_pos hexit]
      exact ⟨rfl, rfl⟩
    · rw [if_neg hexit]
      dsimp only
      obtain ⟨h1, h2⟩ := hrec (coverJsGo (m.total + 1) m (m.get cur).d (m.get cur).d)
        (sol ++ [(m.get cur).d]) c0
      rw [h2]
      dsimp only
      obtain ⟨g1, g2⟩ := ih _ sol
        (recur (coverJsGo (m.total + 1) m (m.get cur).d (m.get cur).d)
          (sol ++ [(m.get cur).d]) c0).cs col (m.get cur).d
      refine ⟨?_, g2⟩
      rw [g1, h1, List.length_append]
      omega

theorem solveInner_count :
    ∀ (rfuel : Nat) (m : Matrix) (sol : List Nat) (c0 : Nat),
      (solveInner (fun _ c _ => (c + 1, (CFlow.cont : CFlow Unit))) rfuel m sol c0).cs =
        c0 + (solveInner (fun _ c _ => (c + 1, (CFlow.cont : CFlow Unit))) rfuel m sol c0).tr.length ∧
      (solveInner (fun _ c _ => (c + 1, (CFlow.cont : CFlow Unit))) rfuel m sol c0).res = none := by
  intro rfuel
  induction rfuel with
  | zero => intro m sol c0; exact ⟨rfl, rfl⟩
  | succ n ih =>
    intro m sol c0
    rw [solveInner]
    rcases hc : m.chooseCol with _ | col
    · exact ⟨rfl, rfl⟩
    · exact solveGoF_count _ (fun mm sol₀ c₀ => ih mm sol₀ c₀) _ _ sol c0 col col

/-- C8: `solve_count()` equals the number of callback invocations
(the length of the delivery trace) when `solve` is driven with a
callback that always returns `continue`. -/
theorem c8_solveCount_matches_solve {T σ : Type} (m : Matrix) (rfuel : Nat) (cs0 : σ)
    (cb : σ → List Nat → σ × List Nat × CFlow T)
    (hcb : ∀ s b, (cb s b).2.2 = CFlow.cont) :
    m.solveCount rfuel = (m.solve cb rfuel cs0).tr.length := by
  unfold Matrix.solveCount Matrix.solve
  obtain ⟨h1, _⟩ := solveInner_count rfuel m [] 0
  rw [h1, Nat.zero_add]
  have hrel := solveInner_rel (fun (_ : Unit) (_ : T) => False) (fun _ _ => True) m
    (fun _ c _ => (c + 1, (CFlow.cont : CFlow Unit))) (wrapCb cb)
    (fun mm cs₁ cs₂ sol _ _ => by
      refine ⟨trivial, ?_⟩
      show vRel _ CFlow.cont (wrapCb cb mm cs₂ sol).2
      unfold wrapCb
      dsimp only
      rw [hcb cs₂.1 (sol.map fun i => (mm.get i).row)]
      exact trivial)
    rfuel m [] 0 (cs0, []) (sameRC_refl m) trivial
  rw [hrel.2.2.1]

/-- Witness for `c8_solveCount_matches_solve` on a 2-row instance. -/
theorem c8_solveCount_matches_solve_witness :
    (solverNew [[0], [1]]).solveCount 7 =
      ((solverNew [[0], [1]]).solve
        (fun (s : Unit) (b : List Nat) => (s, b, (CFlow.cont : CFlow Unit))) 7 ()).tr.length :=
  c8_solveCount_matches_solve _ 7 () _ (fun _ _ => rfl)

/-- C10: mutating the delivered buffer inside the callback is
frame-isolated.  Two callbacks that make the same decisions (same state
update, same verdict) but leave arbitrarily different contents in the
buffer produce the same search: same result, same final arena, same
delivery trace, same final caller state — because the buffer is cleared
and rebuilt from the solver's internal partial solution before every
invocation. -/
theorem c10_buffer_mutation_frame {T σ : Type} (m : Matrix) (rfuel : Nat) (cs0 : σ)
    (cb₁ cb₂ : σ → List Nat → σ × List Nat × CFlow T)
    (hdec : ∀ s b, (cb₁ s b).1 = (cb₂ s b).1 ∧ (cb₁ s b).2.2 = (cb₂ s b).2.2) :
    (m.solve cb₁ rfuel cs0).res = (m.solve cb₂ rfuel cs0).res ∧
    (m.solve cb₁ rfuel cs0).m = (m.solve cb₂ rfuel cs0).m ∧
    (m.solve cb₁ rfuel cs0).tr = (m.solve cb₂ rfuel cs0).tr ∧
    (m.solve cb₁ rfuel cs0).cs.1 = (m.solve cb₂ rfuel cs0).cs.1 := by
  unfold Matrix.solve
  have hrel := solveInner_rel (fun (a b : T) => a = b)
    (fun (st₁ st₂ : σ × List Nat) => st₁.1 = st₂.1) m (wrapCb cb₁) (wrapCb cb₂)
    (fun mm cs₁ cs₂ sol _ hR => by
      unfold wrapCb
      dsimp only
      rw [← hR]
      refine ⟨(hdec cs₁.1 (sol.map fun i => (mm.get i).row)).1, ?_⟩
      rw [(hdec cs₁.1 (sol.map fun i => (mm.get i).row)).2]
      exact vRel_refl _)
    rfuel m [] (cs0, []) (cs0, []) (sameRC_refl m) rfl
  exact ⟨oRel_eq hrel.2.2.2.2, hrel.1, hrel.2.2.1, hrel.2.2.2.1⟩

/-- Witness for `c10_buffer_mutation_frame`: one callback reverses the
delivered slice, the other zeroes it; the traces agree. -/
theorem c10_buffer_mutation_frame_witness :
    ((solverNew [[0], [1]]).solve
        (fun (s : Unit) (b : List Nat) => (s, b.reverse, (CFlow.cont : CFlow Unit))) 7 ()).tr =
      ((solverNew [[0], [1]]).solve
        (fun (s : Unit) (b : List Nat) => (s, [], (CFlow.cont : CFlow Unit))) 7 ()).tr :=
  (c10_buffer_mutation_frame _ 7 () _ _ (fun _ _ => ⟨rfl, rfl⟩)).2.2.1

/-! ### Break/continue semantics of the callback protocol -/

theorem bufsOf_append (m : Matrix) (t₁ t₂ : List (List Nat)) :
    bufsOf m (t₁ ++ t₂) = bufsOf m t₁ ++ bufsOf m t₂ := by
  simp [bufsOf]

theorem bufsOf_length (m : Matrix) (t : List (List Nat)) :
    (bufsOf m t).length = t.length := by
  simp [bufsOf]

theorem mapRow_sameRC {m m0 : Matrix} (h : sameRC m m0) (sol : List Nat) :
    (sol.map fun i => (m.get i).row) = sol.map m0.rowOf := by
  induction sol with
  | nil => rfl
  | cons x xs ih =>
    simp only [List.map_cons]
    rw [ih, (h.2.2 x).1]
    rfl

theorem firstBreakAt_append {T σ : Type} (cb : σ → List Nat → σ × List Nat × CFlow T)
    (s : σ) (b₁ b₂ : List (List Nat)) (h : firstBreakAt cb s b₁ = none) :
    firstBreakAt cb s (b₁ ++ b₂) =
      (firstBreakAt cb (scanState cb s b₁) b₂).map (fun p => (p.1 + b₁.length, p.2)) := by
  induction b₁ generalizing s with
  | nil =>
    simp only [List.nil_append, scanState, List.length_nil]
    cases firstBreakAt cb s b₂ <;> simp
  | cons b bs ih =>
    rw [firstBreakAt] at h
    rw [List.cons_append, firstBreakAt, scanState]
    rcases hcb : cb s b with ⟨s', mb, v⟩
    rw [hcb] at h
    cases v
    · dsimp only at h
      exact absurd h (by simp)
    · dsimp only at h ⊢
      have h' : firstBreakAt cb s' bs = none := by
        rcases hbs : firstBreakAt cb s' bs with _ | p
        · rfl
        · rw [hbs] at h
          exact absurd h (by simp)
      rw [ih s' h']
      cases firstBreakAt cb (scanState cb s' bs) b₂ <;>
        simp [List.length_cons] <;> omega

theorem scanState_append {T σ : Type} (cb : σ → List Nat → σ × List Nat × CFlow T)
    (s : σ) (b₁ b₂ : List (List Nat)) (h : firstBreakAt cb s b₁ = none) :
    scanState cb s (b₁ ++ b₂) = scanState cb (scanState cb s b₁) b₂ := by
  induction b₁ generalizing s with
  | nil => rfl
  | cons b bs ih =>
    rw [firstBreakAt] at h
    rw [List.cons_append, scanState, scanState]
    rcases hcb : cb s b with ⟨s', mb, v⟩
    rw [hcb] at h
    cases v
    · dsimp only at h
      exact absurd h (by simp)
    · dsimp only at h ⊢
      exact ih s' (by
        rcases hbs : firstBreakAt cb s' bs with _ | p
        · rfl
        · rw [hbs] at h
          exact absurd h (by simp))

theorem solveGoF_break {T σ : Type} (cb : σ → List Nat → σ × List Nat × CFlow T)
    (m0 : Matrix) (recur : Matrix → List Nat → σ × List Nat → SRes T (σ × List Nat))
    (hrec : ∀ mm sol cs, sameRC mm m0 →
      sameRC (recur mm sol cs).m mm ∧
      (firstBreakAt cb cs.1 (bufsOf m0 (recur mm sol cs).tr) = none →
        (recur mm sol cs).res = none ∧
        scanState cb cs.1 (bufsOf m0 (recur mm sol cs).tr) = (recur mm sol cs).cs.1) ∧
      (∀ k v, firstBreakAt cb cs.1 (bufsOf m0 (recur mm sol cs).tr) = some (k, v) →
        (recur mm sol cs).res = some v ∧ k + 1 = (recur mm sol cs).tr.length)) :
    ∀ (wfuel : Nat) (m : Matrix) (sol : List Nat) (cs : σ × List Nat) (col cur : Nat),
      sameRC m m0 →
      sameRC (solveGoF recur wfuel m sol cs col cur).m m ∧
      (firstBreakAt cb cs.1 (bufsOf m0 (solveGoF recur wfuel m sol cs col cur).tr) = none →
        (solveGoF recur wfuel m sol cs col cur).res = none ∧
        scanState cb cs.1 (bufsOf m0 (solveGoF recur wfuel m sol cs col cur).tr) =
          (solveGoF recur wfuel m sol cs col cur).cs.1) ∧
      (∀ k v, firstBreakAt cb cs.1 (bufsOf m0 (solveGoF recur wfuel m sol cs col cur).tr) =
          some (k, v) →
        (solveGoF recur wfuel m sol cs col cur).res = some v ∧
        k + 1 = (solveGoF recur wfuel m sol cs col cur).tr.length) := by
  intro wfuel
  induction wfuel with
  | zero =>
    intro m sol cs col cur hm
    refine ⟨sameRC_refl m, fun _ => ⟨rfl, rfl⟩, fun k v h => absurd h (by simp [firstBreakAt, bufsOf])⟩
  | succ w ih =>
    intro m sol cs col cur hm
    rw [solveGoF]
    by_cases hexit : (m.get cur).d = col
    · rw [if_pos hexit]
      exact ⟨sameRC_uncover m col, fun _ => ⟨rfl, rfl⟩,
        fun k v h => absurd h (by simp [firstBreakAt, bufsOf])⟩
    · rw [if_neg hexit]
      dsimp only
      have hm₁ : sameRC (coverJsGo (m.total + 1) m (m.get cur).d (m.get cur).d) m :=
        sameRC_coverJsGo _ _ _ _
      obtain ⟨hS, hN, hB⟩ := hrec (coverJsGo (m.total + 1) m (m.get cur).d (m.get cur).d)
        (sol ++ [(m.get cur).d]) cs (sameRC_trans hm₁ hm)
      rcases hres₁ : (recur (coverJsGo (m.total + 1) m (m.get cur).d (m.get cur).d)
          (sol ++ [(m.get cur).d]) cs).res with _ | t
      · -- r₁.res = none: the loop continues
        dsimp only
        have hscan₁ : firstBreakAt cb cs.1 (bufsOf m0
            (recur (coverJsGo (m.total + 1) m (m.get cur).d (m.get cur).d)
              (sol ++ [(m.get cur).d]) cs).tr) = none := by
          rcases hsc : firstBreakAt cb cs.1 (bufsOf m0
              (recur (coverJsGo (m.total + 1) m (m.get cur).d (m.get cur).d)
                (sol ++ [(m.get cur).d]) cs).tr) with _ | p
          · rfl
          · obtain ⟨habs, _⟩ := hB p.1 p.2 (by rw [hsc])
            rw [hres₁] at habs
            exact absurd habs (by simp)
        obtain ⟨hres₀, hst₁⟩ := hN hscan₁
        have hm₂ : sameRC (uncoverJsGo
            ((recur (coverJsGo (m.total + 1) m (m.get cur).d (m.get cur).d)
              (sol ++ [(m.get cur).d]) cs).m.total + 1)
            (recur (coverJsGo (m.total + 1) m (m.get cur).d (m.get cur).d)
              (sol ++ [(m.get cur).d]) cs).m (m.get cur).d (m.get cur).d) m :=
          sameRC_trans (sameRC_uncoverJsGo _ _ _ _) (sameRC_trans hS hm₁)
        obtain ⟨gS, gN, gB⟩ := ih _ sol
          (recur (coverJsGo (m.total + 1) m (m.get cur).d (m.get cur).d)
            (sol ++ [(m.get cur).d]) cs).cs col (m.get cur).d (sameRC_trans hm₂ hm)
        refine ⟨sameRC_trans gS hm₂, ?_, ?_⟩
        · intro hwhole
          rw [bufsOf_append] at hwhole ⊢
          rw [firstBreakAt_append cb cs.1 _ _ hscan₁] at hwhole
          rw [scanState_append cb cs.1 _ _ hscan₁, hst₁]
          rcases hsc₂ : firstBreakAt cb
              (recur (coverJsGo (m.total + 1) m (m.get cur).d (m.get cur).d)
                (sol ++ [(m.get cur).d]) cs).cs.1
              (bufsOf m0 (solveGoF recur w _ sol _ col (m.get cur).d).tr) with _ | p
          · rw [hst₁] at hwhole
            exact gN hsc₂
          · rw [hst₁, hsc₂] at hwhole
            exact absurd hwhole (by simp)
        · intro k v hwhole
          rw [bufsOf_append] at hwhole
          rw [firstBreakAt_append cb cs.1 _ _ hscan₁, hst₁] at hwhole
          rcases hsc₂ : firstBreakAt cb
              (recur (coverJsGo (m.total + 1) m (m.get cur).d (m.get cur).d)
                (sol ++ [(m.get cur).d]) cs).cs.1
              (bufsOf m0 (solveGoF recur w _ sol _ col (m.get cur).d).tr) with _ | p
          · rw [hsc₂] at hwhole
            exact absurd hwhole (by simp)
          · rw [hsc₂] at hwhole
            have hpair : (p.1 + (bufsOf m0
                (recur (coverJsGo (m.total + 1) m (m.get cur).d (m.get cur).d)
                  (sol ++ [(m.get cur).d]) cs).tr).length, p.2) = (k, v) :=
              Option.some.inj hwhole
            have hk : p.1 + (bufsOf m0
                (recur (coverJsGo (m.total + 1) m (m.get cur).d (m.get cur).d)
                  (sol ++ [(m.get cur).d]) cs).tr).length = k := congrArg Prod.fst hpair
            have hv : p.2 = v := congrArg Prod.snd hpair
            obtain ⟨gres, glen⟩ := gB p.1 p.2 (by rw [hsc₂])
            refine ⟨by rw [gres, hv], ?_⟩
            rw [List.length_append, ← hk, bufsOf_length]
            omega
      · -- r₁.res = some t: break propagates, skipping the uncovers
        dsimp only
        refine ⟨sameRC_trans hS hm₁, ?_, ?_⟩
        · intro hwhole
          obtain ⟨habs, _⟩ := hN hwhole
          rw [hres₁] at habs
          exact absurd habs (by simp)
        · intro k v hwhole
          obtain ⟨hres, hlen⟩ := hB k v hwhole
          rw [hres₁] at hres
          exact ⟨hres, hlen⟩

theorem solveInner_break {T σ : Type} (cb : σ → List Nat → σ × List Nat × CFlow T)
    (m0 : Matrix) :
    ∀ (rfuel : Nat) (m : Matrix) (sol : List Nat) (cs : σ × List Nat), sameRC m m0 →
      (firstBreakAt cb cs.1 (bufsOf m0 (solveInner (wrapCb cb) rfuel m sol cs).tr) = none →
        (solveInner (wrapCb cb) rfuel m sol cs).res = none ∧
        scanState cb cs.1 (bufsOf m0 (solveInner (wrapCb cb) rfuel m sol cs).tr) =
          (solveInner (wrapCb cb) rfuel m sol cs).cs.1) ∧
      (∀ k v, firstBreakAt cb cs.1
          (bufsOf m0 (solveInner (wrapCb cb) rfuel m sol cs).tr) = some (k, v) →
        (solveInner (wrapCb cb) rfuel m sol cs).res = some v ∧
        k + 1 = (solveInner (wrapCb cb) rfuel m sol cs).tr.length) := by
  intro rfuel
  induction rfuel with
  | zero =>
    intro m sol cs hm
    exact ⟨fun _ => ⟨rfl, rfl⟩, fun k v h => absurd h (by simp [firstBreakAt, bufsOf])⟩
  | succ n ih =>
    intro m sol cs hm
    rw [solveInner]
    rcases hc : m.chooseCol with _ | col
    · -- delivery
      dsimp only
      have hbuf : (sol.map fun i => (m.get i).row) = sol.map m0.rowOf := mapRow_sameRC hm sol
      unfold wrapCb
      dsimp only
      rcases hcb : cb cs.1 (sol.map fun i => (m.get i).row) with ⟨s', mb, v⟩
      rw [hbuf] at hcb
      cases v
      case brk t =>
        have hfb : firstBreakAt cb cs.1 (bufsOf m0 [sol]) = some (0, t) := by
          show firstBreakAt cb cs.1 [sol.map m0.rowOf] = some (0, t)
          rw [firstBreakAt, hcb]
        dsimp only
        refine ⟨fun h => ?_, fun k v₀ h => ?_⟩
        · rw [hfb] at h
          exact absurd h (by simp)
        · rw [hfb] at h
          have hpair : ((0 : Nat), t) = (k, v₀) := Option.some.inj h
          have hk : (0 : Nat) = k := congrArg Prod.fst hpair
          have hv : t = v₀ := congrArg Prod.snd hpair
          exact ⟨by rw [← hv], by rw [← hk]; rfl⟩
      case cont =>
        have hfb : firstBreakAt cb cs.1 (bufsOf m0 [sol]) = none := by
          show firstBreakAt cb cs.1 [sol.map m0.rowOf] = none
          rw [firstBreakAt, hcb]
          rfl
        have hsc : scanState cb cs.1 (bufsOf m0 [sol]) = s' := by
          show scanState cb cs.1 [sol.map m0.rowOf] = s'
          rw [scanState, hcb]
          rfl
        dsimp only
        refine ⟨fun _ => ⟨rfl, hsc⟩, fun k v₀ h => ?_⟩
        rw [hfb] at h
        exact absurd h (by simp)
    · dsimp only
      have hgo := solveGoF_break cb m0 _
        (fun mm sol₀ cs₀ hmm =>
          ⟨solveInner_sameRC (wrapCb cb) n mm sol₀ cs₀,
           (ih mm sol₀ cs₀ hmm).1, (ih mm sol₀ cs₀ hmm).2⟩)
        ((m.cover col).total + 1) (m.cover col) sol cs col col
        (sameRC_trans (sameRC_cover m col) hm)
      exact ⟨hgo.2.1, hgo.2.2⟩

/-- C7: if the callback returns `break(v)` at some delivered solution,
`solve` halts immediately — that delivery is the last one, the callback
is invoked on no further solution — and returns `Some(v)`; if the
callback returns `continue` on every delivered solution, `solve` runs
to exhaustion and returns `None` even when solutions were delivered.
`firstBreakAt` replays the caller callback over the delivered buffers
(`bufsOf`), locating the first `break` verdict. -/
theorem c7_break_continue_semantics {T σ : Type} (m : Matrix) (rfuel : Nat) (cs0 : σ)
    (cb : σ → List Nat → σ × List Nat × CFlow T) :
    (firstBreakAt cb cs0 (bufsOf m (m.solve cb rfuel cs0).tr) = none →
      (m.solve cb rfuel cs0).res = none) ∧
    (∀ k v, firstBreakAt cb cs0 (bufsOf m (m.solve cb rfuel cs0).tr) = some (k, v) →
      (m.solve cb rfuel cs0).res = some v ∧
      k + 1 = (m.solve cb rfuel cs0).tr.length) := by
  have h := solveInner_break cb m rfuel m [] (cs0, []) (sameRC_refl m)
  exact ⟨fun hn => (h.1 hn).1, h.2⟩

/-- Witness for `c7_break_continue_semantics`: a 1-column, 2-row
instance driven by an always-`break` callback; the first delivery
breaks, the trace stops there, and `solve` returns `Some(())`. -/
theorem c7_break_continue_semantics_witness :
    ((solverNew [[0], [0]]).solve
        (fun (s : Unit) (b : List Nat) => (s, b, CFlow.brk ())) 7 ()).res = some () ∧
      0 + 1 = ((solverNew [[0], [0]]).solve
        (fun (s : Unit) (b : List Nat) => (s, b, CFlow.brk ())) 7 ()).tr.length :=
  (c7_break_continue_semantics (solverNew [[0], [0]]) 7 ()
    (fun (s : Unit) (b : List Nat) => (s, b, CFlow.brk ()))).2 0 () (by decide)

/-! ### Characterization of `Matrix::new` -/

theorem matrixNew_headers_length (N : Nat) : (Matrix.new N).headers.length = N + 1 := by
  simp [Matrix.new]

theorem matrixNew_get_zero (N : Nat) :
    (Matrix.new N).get 0 = ⟨0, 0, DANGLING, DANGLING, N + 1, 1⟩ := by
  simp [Matrix.new, Matrix.get, Matrix.lookup?, headerIdx, Nat.add_comm 1 N]

theorem matrixNew_get_col (N k : Nat) (h1 : 1 ≤ k) (h2 : k ≤ N) :
    (Matrix.new N).get k =
      ⟨0, k, DANGLING, DANGLING, k - 1, if k = N then 0 else k + 1⟩ := by
  obtain ⟨j, rfl⟩ : ∃ j, k = j + 1 := ⟨k - 1, by omega⟩
  have hj : j < N := by omega
  simp only [Matrix.get, Matrix.lookup?, Matrix.new, List.length_cons, List.length_map,
    List.length_range]
  rw [if_pos (by omega)]
  rw [List.get?_cons_succ, List.get?_map, List.get?_range hj]
  by_cases h0 : j = 0 <;> by_cases hN' : j + 1 = N <;>
    simp_all [Node.mk.injEq, headerIdx] <;> omega

theorem matrixNew_size (N k : Nat) (h : k ≤ N) : (Matrix.new N).size k = 0 := by
  rcases Nat.eq_zero_or_pos k with rfl | hk
  · simp [Matrix.size, Matrix.new]
  · have hj : k - 1 < N := by omega
    obtain ⟨j, rfl⟩ : ∃ j, k = j + 1 := ⟨k - 1, by omega⟩
    simp only [Matrix.size, Matrix.new, List.get?_cons_succ, List.get?_map]
    rw [List.get?_range (by omega)]
    simp

/-- C5: after `Matrix::new(N)` the header row is as the spec describes it —
root's `r` is the first column header, each column header `k` has
`l = k - 1`, `r = k + 1` (wrapping to the root at the ends), `u`/`d`
dangling and `size = 0` — EXCEPT the root's `l` pointer, which the
source sets to `Index::header(column_count) = N + 1`, one past the last
column header, instead of the last column header `N`. -/
theorem c5_constructor_header_ring (N : Nat) (hN : 1 ≤ N) :
    ((Matrix.new N).get 0).r = 1 ∧
    (∀ k, 1 ≤ k → k ≤ N →
      ((Matrix.new N).get k).l = k - 1 ∧
      ((Matrix.new N).get k).r = (if k = N then 0 else k + 1) ∧
      ((Matrix.new N).get k).u = DANGLING ∧
      ((Matrix.new N).get k).d = DANGLING ∧
      (Matrix.new N).size k = 0) ∧
    ((Matrix.new N).get 0).l = N + 1 ∧ ((Matrix.new N).get 0).l ≠ N := by
  refine ⟨by rw [matrixNew_get_zero], ?_, by rw [matrixNew_get_zero], ?_⟩
  · intro k hk1 hk2
    rw [matrixNew_get_col N k hk1 hk2]
    exact ⟨rfl, rfl, rfl, rfl, matrixNew_size N k hk2⟩
  · rw [matrixNew_get_zero]; simp

/-- Witness for `c5_constructor_header_ring` at `N = 1`. -/
theorem c5_constructor_header_ring_witness :
    ((Matrix.new 1).get 0).l = 2 ∧ ((Matrix.new 1).get 0).l ≠ 1 :=
  (c5_constructor_header_ring 1 (by decide)).2.2

/-- C6: on the empty input the builder succeeds, but the arena has a
single (root) header whose `r` pointer is `1`, an out-of-bounds index
(`lookup? 1 = none`): the very first arena access of `solve`'s
column-selection walk (`self[self[GLOBAL].r]`) panics in the source
instead of delivering the empty cover. -/
theorem denseToSparse_nil : denseToSparse [] = [] := by
  simp [denseToSparse]

theorem solverNew_nil_eq :
    solverNew [] = { headers := [{ size := 0, node := ⟨0, 0, 0, 0, 1, 1⟩ }], nodes := [] } := by
  unfold solverNew
  simp only [denseToSparse_nil]
  rfl

theorem c6_empty_input_out_of_bounds :
    (solverNew []).headers.length = 1 ∧
    ((solverNew []).get 0).r = 1 ∧
    (solverNew []).lookup? ((solverNew []).get 0).r = none := by
  rw [solverNew_nil_eq]
  decide

theorem Matrix.get_oob (m : Matrix) (i : Nat) (h : m.total ≤ i) :
    m.get i = defaultNode := by
  show (m.lookup? i).getD defaultNode = defaultNode
  show (if i < m.headers.length then (m.headers.get? i).map Header.node
        else m.nodes.get? (i - m.headers.length)).getD defaultNode = defaultNode
  rw [if_neg (by unfold Matrix.total at h; omega),
    listGet?_eq_none _ _ (by unfold Matrix.total at h; omega)]
  rfl

theorem Matrix.size_oob (m : Matrix) (c : Nat) (h : m.headers.length ≤ c) :
    m.size c = 0 := by
  show ((m.headers.get? c).map Header.size).getD 0 = 0
  rw [listGet?_eq_none _ _ h]
  rfl

/-- C3: the claimed cover/uncover round trip fails at a reachable
quiescent state.  For the one-row input `[[0]]` (post-build state, a
quiescent moment), column 1 is linked to the root (`root.r = 1`), yet
`cover(1); uncover(1)` does not restore every pointer: the root's `l`
pointer changes from its post-construction value 2 (the off-by-one
`Index::header(column_count)`) to 1.  All other pointers and the size
counters are restored. -/
theorem c3_cover_uncover_round_trip :
    ((solverNew [[0]]).get 0).r = 1 ∧
    ((solverNew [[0]]).cover 1).uncover 1 ≠ solverNew [[0]] ∧
    ((solverNew [[0]]).get 0).l = 2 ∧
    ((((solverNew [[0]]).cover 1).uncover 1).get 0).l = 1 ∧
    (∀ x, x ≠ 0 → (((solverNew [[0]]).cover 1).uncover 1).get x = (solverNew [[0]]).get x) ∧
    (∀ c, ((((solverNew [[0]]).cover 1).uncover 1)).size c = (solverNew [[0]]).size c) := by
  refine ⟨by decide, by decide, by decide, by decide, ?_, ?_⟩
  · intro x hx
    match x with
    | 0 => exact absurd rfl hx
    | 1 => decide
    | 2 => decide
    | n + 3 =>
      rw [Matrix.get_oob _ _ (le_of_eq_of_le (by decide : (((solverNew [[0]]).cover 1).uncover 1).total = 3) (by omega)),
        Matrix.get_oob _ _ (le_of_eq_of_le (by decide : (solverNew [[0]]).total = 3) (by omega))]
  · intro c
    match c with
    | 0 => decide
    | 1 => decide
    | n + 2 =>
      rw [Matrix.size_oob _ _ (le_of_eq_of_le (by decide : ((((solverNew [[0]]).cover 1).uncover 1)).headers.length = 2) (by omega)),
        Matrix.size_oob _ _ (le_of_eq_of_le (by decide : (solverNew [[0]]).headers.length = 2) (by omega))]

/-- C9: two successive `solve` calls on the same solver can deliver
different solution sequences.  For input `[[0], [0]]` with a callback
that always breaks, the first call delivers the single buffer `[0]` and
returns early without uncovering; the second call then finds the arena
still covered and delivers the empty buffer `[]`. -/
theorem c9_successive_runs_diverge :
    bufsOf (solverNew [[0], [0]]) ((solverNew [[0], [0]]).solve breakAll 5 ()).tr
      = [[0]] ∧
    bufsOf ((solverNew [[0], [0]]).solve breakAll 5 ()).m
      ((((solverNew [[0], [0]]).solve breakAll 5 ()).m).solve breakAll 5 ()).tr
      = [[]] ∧
    ((solverNew [[0], [0]]).solve breakAll 5 ()).res = some () ∧
    ((((solverNew [[0], [0]]).solve breakAll 5 ()).m).solve breakAll 5 ()).res
      = some () := by
  decide

/-! ### Column selection: `min_by_key` returns the first minimum -/

theorem foldlMin_le_init {α : Type} (key : α → Nat) :
    ∀ (xs : List α) (x : α),
      key (xs.foldl (fun acc y => if key y < key acc then y else acc) x) ≤ key x
  | [], _ => le_refl _
  | y :: ys, x => by
    dsimp only [List.foldl]
    by_cases h : key y < key x
    · rw [if_pos h]
      exact le_trans (foldlMin_le_init key ys y) (le_of_lt h)
    · rw [if_neg h]
      exact foldlMin_le_init key ys x

theorem foldlMin_spec {α : Type} (key : α → Nat) :
    ∀ (xs : List α) (x : α),
      ∃ pre post,
        x :: xs =
          pre ++ xs.foldl (fun acc y => if key y < key acc then y else acc) x :: post ∧
        (∀ e ∈ pre,
          key (xs.foldl (fun acc y => if key y < key acc then y else acc) x) < key e) ∧
        (∀ e ∈ post,
          key (xs.foldl (fun acc y => if key y < key acc then y else acc) x) ≤ key e)
  | [], x => ⟨[], [], rfl, by simp, by simp⟩
  | y :: ys, x => by
    dsimp only [List.foldl]
    by_cases hxy : key y < key x
    · rw [if_pos hxy]
      obtain ⟨pre, post, heq, hpre, hpost⟩ := foldlMin_spec key ys y
      refine ⟨x :: pre, post, ?_, ?_, hpost⟩
      · rw [List.cons_append, ← heq]
      · intro e he
        rcases List.mem_cons.mp he with rfl | he'
        · exact lt_of_le_of_lt (foldlMin_le_init key ys y) hxy
        · exact hpre e he'
    · rw [if_neg hxy]
      obtain ⟨pre, post, heq, hpre, hpost⟩ := foldlMin_spec key ys x
      cases pre with
      | nil =>
        rw [List.nil_append] at heq
        obtain ⟨h1, h2⟩ := List.cons.inj heq
        refine ⟨[], y :: post, ?_, by simp, ?_⟩
        · rw [List.nil_append, ← h1, ← h2]
        · intro e he
          rcases List.mem_cons.mp he with rfl | he'
          · rw [← h1]
            exact Nat.le_of_not_lt hxy
          · exact hpost e he'
      | cons p pre' =>
        rw [List.cons_append] at heq
        obtain ⟨h1, h2⟩ := List.cons.inj heq
        refine ⟨x :: y :: pre', post, ?_, ?_, hpost⟩
        · rw [List.cons_append, List.cons_append, ← h2]
        · intro e he
          have hrx := hpre p (List.mem_cons_self p pre')
          rw [← h1] at hrx
          rcases List.mem_cons.mp he with rfl | he'
          · exact hrx
          rcases List.mem_cons.mp he' with rfl | he''
          · exact lt_of_lt_of_le hrx (Nat.le_of_not_lt hxy)
          · exact hpre e (List.mem_cons_of_mem _ he'')

theorem minByFirst_spec (key : Nat → Nat) (L : List Nat) (r : Nat)
    (h : minByFirst key L = some r) :
    ∃ pre post, L = pre ++ r :: post ∧
      (∀ e ∈ pre, key r < key e) ∧ (∀ e ∈ post, key r ≤ key e) := by
  cases L with
  | nil => exact Option.noConfusion h
  | cons x xs =>
    obtain ⟨pre, post, heq, hpre, hpost⟩ := foldlMin_spec key xs x
    have hr : xs.foldl (fun acc y => if key y < key acc then y else acc) x = r :=
      Option.some.inj h
    rw [hr] at heq hpre hpost
    exact ⟨pre, post, heq, hpre, hpost⟩

/-! ### The rightward walk over an intact sorted header ring -/

theorem ringWalkGo (m : Matrix) (N : Nat)
    (hk : ∀ k, 1 ≤ k → k ≤ N → (m.get k).r = if k = N then 0 else k + 1) :
    ∀ fuel k, 1 ≤ k → k ≤ N → N - k < fuel →
      walkGo m Node.r 0 fuel k = List.range' (k + 1) (N - k) := by
  intro fuel
  induction fuel with
  | zero =>
    intro k _ _ h3
    exact absurd h3 (Nat.not_lt_zero _)
  | succ f ih =>
    intro k h1 h2 h3
    rw [walkGo]
    rw [hk k h1 h2]
    by_cases hkN : k = N
    · rw [if_pos hkN, if_pos rfl, show N - k = 0 from by omega]
      rfl
    · rw [if_neg hkN, if_neg (by omega : ¬ k + 1 = 0),
        ih (k + 1) (by omega) (by omega) (by omega)]
      conv_rhs => rw [show N - k = (N - (k + 1)) + 1 from by omega]
      rw [List.range'_succ]

theorem ringWalkList (m : Matrix) (N : Nat) (hN : 1 ≤ N) (htot : N ≤ m.total)
    (h0 : (m.get 0).r = 1)
    (hk : ∀ k, 1 ≤ k → k ≤ N → (m.get k).r = if k = N then 0 else k + 1) :
    m.walkRightList 0 = List.range' 1 N := by
  show walkGo m Node.r 0 (m.total + 1) 0 = List.range' 1 N
  rw [walkGo]
  rw [h0, if_neg (by omega : ¬ (1 : Nat) = 0),
    ringWalkGo m N hk m.total 1 (le_refl 1) hN (by omega)]
  conv_rhs => rw [show N = (N - 1) + 1 from by omega]
  rw [List.range'_succ]

/-! ### The builder never touches a header's `l`, `r` or `col` -/

theorem push_headers (m : Matrix) (n : Node) : (m.push n).1.headers = m.headers := rfl

theorem push_nodes_length (m : Matrix) (n : Node) :
    (m.push n).1.nodes.length = m.nodes.length + 1 := by
  show (m.nodes ++ [n]).length = m.nodes.length + 1
  simp

theorem push_get_lt (m : Matrix) (n : Node) (x : Nat) (h : x < m.total) :
    (m.push n).1.get x = m.get x := by
  show ((m.push n).1.lookup? x).getD defaultNode = (m.lookup? x).getD defaultNode
  have heq : (m.push n).1.lookup? x = m.lookup? x := by
    show (if x < m.headers.length then (m.headers.get? x).map Header.node
          else (m.nodes ++ [n]).get? (x - m.headers.length)) = m.lookup? x
    unfold Matrix.lookup?
    by_cases hx : x < m.headers.length
    · rw [if_pos hx, if_pos hx]
    · rw [if_neg hx, if_neg hx, List.get?_append]
      unfold Matrix.total at h
      omega
  rw [heq]

theorem attachV_l (m : Matrix) (a b x : Nat) :
    ((m.attachVertical a b).get x).l = (m.get x).l := by
  show ((((m.setD a b).setU b a)).get x).l = (m.get x).l
  rw [setU_l, setD_l]

theorem attachV_r (m : Matrix) (a b x : Nat) :
    ((m.attachVertical a b).get x).r = (m.get x).r := by
  show ((((m.setD a b).setU b a)).get x).r = (m.get x).r
  rw [setU_r, setD_r]

theorem attachH_get_ne (m : Matrix) (a b x : Nat) (ha : x ≠ a) (hb : x ≠ b) :
    (m.attachHorizontal a b).get x = m.get x := by
  show (((m.setR a b).setL b a)).get x = m.get x
  rw [Matrix.get_setL, if_neg (by tauto), Matrix.get_setR, if_neg (by tauto)]

theorem buildCell_hdr (d2s : List Nat) (row sp : Nat) (st : BuildSt) (H : Nat)
    (hH : st.m.headers.length = H)
    (hbound : H + st.m.nodes.length < 2 ^ 32)
    (hhead : ∀ h, st.head = some h → H ≤ h ∧ 1 ≤ st.m.nodes.length) :
    (buildCell d2s row st sp).m.headers.length = H ∧
    (buildCell d2s row st sp).m.nodes.length = st.m.nodes.length + 1 ∧
    (∀ h, (buildCell d2s row st sp).head = some h →
      H ≤ h ∧ 1 ≤ (buildCell d2s row st sp).m.nodes.length) ∧
    (∀ t, (buildCell d2s row st sp).tail = some t → H ≤ t) ∧
    ∀ x, x < H →
      ((buildCell d2s row st sp).m.get x).l = (st.m.get x).l ∧
      ((buildCell d2s row st sp).m.get x).r = (st.m.get x).r ∧
      ((buildCell d2s row st sp).m.get x).col = (st.m.get x).col := by
  unfold buildCell
  cases hh : st.head with
  | none =>
    dsimp only [Matrix.push]
    have hidx : ((st.m.updateSize (sparseToDense d2s sp) 1).headers.length +
        (st.m.updateSize (sparseToDense d2s sp) 1).nodes.length) % 2 ^ 32
        = H + st.m.nodes.length := by
      rw [Matrix.updateSize_headers_length, Matrix.updateSize_nodes, hH]
      exact Nat.mod_eq_of_lt hbound
    rw [hidx]
    have hhdr : ((Matrix.mk (st.m.updateSize (sparseToDense d2s sp) 1).headers
        ((st.m.updateSize (sparseToDense d2s sp) 1).nodes ++
          [Node.dangling row (sparseToDense d2s sp)])).attachVertical
        (st.prev.getD (sparseToDense d2s sp) 0)
        (H + st.m.nodes.length)).headers.length = H := by
      rw [(sameRC_attachVertical _ _ _).1]
      show (st.m.updateSize (sparseToDense d2s sp) 1).headers.length = H
      rw [Matrix.updateSize_headers_length, hH]
    have hlen : ((Matrix.mk (st.m.updateSize (sparseToDense d2s sp) 1).headers
        ((st.m.updateSize (sparseToDense d2s sp) 1).nodes ++
          [Node.dangling row (sparseToDense d2s sp)])).attachVertical
        (st.prev.getD (sparseToDense d2s sp) 0)
        (H + st.m.nodes.length)).nodes.length = st.m.nodes.length + 1 := by
      rw [(sameRC_attachVertical _ _ _).2.1]
      show ((st.m.updateSize (sparseToDense d2s sp) 1).nodes ++
        [Node.dangling row (sparseToDense d2s sp)]).length = st.m.nodes.length + 1
      rw [List.length_append, Matrix.updateSize_nodes]
      rfl
    refine ⟨hhdr, hlen, ?_, ?_, ?_⟩
    · intro h hsome
      cases Option.some.inj hsome
      refine ⟨?_, ?_⟩
      · rw [Option.getD_none]
        omega
      · omega
    · intro t hsome
      cases Option.some.inj hsome
      omega
    · intro x hx
      have hx1 : x < (st.m.updateSize (sparseToDense d2s sp) 1).total := by
        show x < (st.m.updateSize (sparseToDense d2s sp) 1).headers.length +
          (st.m.updateSize (sparseToDense d2s sp) 1).nodes.length
        rw [Matrix.updateSize_headers_length, hH]
        omega
      have hrec : ((Matrix.mk (st.m.updateSize (sparseToDense d2s sp) 1).headers
          ((st.m.updateSize (sparseToDense d2s sp) 1).nodes ++
            [Node.dangling row (sparseToDense d2s sp)]))).get x =
          (st.m.updateSize (sparseToDense d2s sp) 1).get x :=
        push_get_lt (st.m.updateSize (sparseToDense d2s sp) 1)
          (Node.dangling row (sparseToDense d2s sp)) x hx1
      refine ⟨?_, ?_, ?_⟩
      · rw [attachV_l, hrec, Matrix.get_updateSize]
      · rw [attachV_r, hrec, Matrix.get_updateSize]
      · rw [((sameRC_attachVertical _ _ _).2.2 x).2, hrec, Matrix.get_updateSize]
  | some h0 =>
    dsimp only [Matrix.push]
    obtain ⟨hh0, hlen1⟩ := hhead h0 hh
    have hidx : ((st.m.updateSize (sparseToDense d2s sp) 1).headers.length +
        (st.m.updateSize (sparseToDense d2s sp) 1).nodes.length) % 2 ^ 32
        = H + st.m.nodes.length := by
      rw [Matrix.updateSize_headers_length, Matrix.updateSize_nodes, hH]
      exact Nat.mod_eq_of_lt hbound
    rw [hidx]
    have hhdrV : ((Matrix.mk (st.m.updateSize (sparseToDense d2s sp) 1).headers
        ((st.m.updateSize (sparseToDense d2s sp) 1).nodes ++
          [Node.dangling row (sparseToDense d2s sp)])).attachVertical
        (st.prev.getD (sparseToDense d2s sp) 0)
        (H + st.m.nodes.length)).headers.length = H := by
      rw [(sameRC_attachVertical _ _ _).1]
      show (st.m.updateSize (sparseToDense d2s sp) 1).headers.length = H
      rw [Matrix.updateSize_headers_length, hH]
    have hlenV : ((Matrix.mk (st.m.updateSize (sparseToDense d2s sp) 1).headers
        ((st.m.updateSize (sparseToDense d2s sp) 1).nodes ++
          [Node.dangling row (sparseToDense d2s sp)])).attachVertical
        (st.prev.getD (sparseToDense d2s sp) 0)
        (H + st.m.nodes.length)).nodes.length = st.m.nodes.length + 1 := by
      rw [(sameRC_attachVertical _ _ _).2.1]
      show ((st.m.updateSize (sparseToDense d2s sp) 1).nodes ++
        [Node.dangling row (sparseToDense d2s sp)]).length = st.m.nodes.length + 1
      rw [List.length_append, Matrix.updateSize_nodes]
      rfl
    refine ⟨?_, ?_, ?_, ?_, ?_⟩
    · rw [(sameRC_attachHorizontal _ _ _).1, hhdrV]
    · rw [(sameRC_attachHorizontal _ _ _).2.1, hlenV]
    · intro h hsome
      cases Option.some.inj hsome
      refine ⟨?_, ?_⟩
      · rw [Option.getD_some]
        exact hh0
      · rw [(sameRC_attachHorizontal _ _ _).2.1, hlenV]
        omega
    · intro t hsome
      cases Option.some.inj hsome
      omega
    · intro x hx
      have hne : ((((Matrix.mk (st.m.updateSize (sparseToDense d2s sp) 1).headers
          ((st.m.updateSize (sparseToDense d2s sp) 1).nodes ++
            [Node.dangling row (sparseToDense d2s sp)])).attachVertical
          (st.prev.getD (sparseToDense d2s sp) 0)
          (H + st.m.nodes.length)).attachHorizontal
          (H + st.m.nodes.length - 1) (H + st.m.nodes.length)).get x) =
          ((Matrix.mk (st.m.updateSize (sparseToDense d2s sp) 1).headers
          ((st.m.updateSize (sparseToDense d2s sp) 1).nodes ++
            [Node.dangling row (sparseToDense d2s sp)])).attachVertical
          (st.prev.getD (sparseToDense d2s sp) 0) (H + st.m.nodes.length)).get x :=
        attachH_get_ne _ _ _ _ (by omega) (by omega)
      have hx1 : x < (st.m.updateSize (sparseToDense d2s sp) 1).total := by
        show x < (st.m.updateSize (sparseToDense d2s sp) 1).headers.length +
          (st.m.updateSize (sparseToDense d2s sp) 1).nodes.length
        rw [Matrix.updateSize_headers_length, hH]
        omega
      have hrec : ((Matrix.mk (st.m.updateSize (sparseToDense d2s sp) 1).headers
          ((st.m.updateSize (sparseToDense d2s sp) 1).nodes ++
            [Node.dangling row (sparseToDense d2s sp)]))).get x =
          (st.m.updateSize (sparseToDense d2s sp) 1).get x :=
        push_get_lt (st.m.updateSize (sparseToDense d2s sp) 1)
          (Node.dangling row (sparseToDense d2s sp)) x hx1
      refine ⟨?_, ?_, ?_⟩
      · rw [hne, attachV_l, hrec, Matrix.get_updateSize]
      · rw [hne, attachV_r, hrec, Matrix.get_updateSize]
      · rw [hne, ((sameRC_attachVertical _ _ _).2.2 x).2, hrec, Matrix.get_updateSize]

theorem buildCells_hdr (d2s : List Nat) (row : Nat) (H : Nat) :
    ∀ (ids : List Nat) (st : BuildSt),
      st.m.headers.length = H →
      H + st.m.nodes.length + ids.length ≤ 2 ^ 32 →
      (∀ h, st.head = some h → H ≤ h ∧ 1 ≤ st.m.nodes.length) →
      (∀ t, st.tail = some t → H ≤ t) →
      (ids.foldl (buildCell d2s row) st).m.headers.length = H ∧
      (ids.foldl (buildCell d2s row) st).m.nodes.length =
        st.m.nodes.length + ids.length ∧
      (∀ h, (ids.foldl (buildCell d2s row) st).head = some h →
        H ≤ h ∧ 1 ≤ (ids.foldl (buildCell d2s row) st).m.nodes.length) ∧
      (∀ t, (ids.foldl (buildCell d2s row) st).tail = some t → H ≤ t) ∧
      ∀ x, x < H →
        ((ids.foldl (buildCell d2s row) st).m.get x).l = (st.m.get x).l ∧
        ((ids.foldl (buildCell d2s row) st).m.get x).r = (st.m.get x).r ∧
        ((ids.foldl (buildCell d2s row) st).m.get x).col = (st.m.get x).col
  | [], st => by
    intro hH _ hhead htail
    exact ⟨hH, rfl, hhead, htail, fun x _ => ⟨rfl, rfl, rfl⟩⟩
  | sp :: ids, st => by
    intro hH hbound hhead htail
    simp only [List.length_cons] at hbound
    obtain ⟨h1, h2, h3, h4, h5⟩ :=
      buildCell_hdr d2s row sp st H hH (by omega) hhead
    have hrest := buildCells_hdr d2s row H ids (buildCell d2s row st sp)
      h1 (by omega) h3 h4
    obtain ⟨g1, g2, g3, g4, g5⟩ := hrest
    rw [List.foldl_cons]
    refine ⟨g1, by rw [g2, h2, List.length_cons]; omega, g3, g4, ?_⟩
    intro x hx
    obtain ⟨e1, e2, e3⟩ := g5 x hx
    obtain ⟨f1, f2, f3⟩ := h5 x hx
    exact ⟨e1.trans f1, e2.trans f2, e3.trans f3⟩

theorem buildRow_hdr (d2s : List Nat) (H row : Nat) (m : Matrix) (prev : List Nat)
    (ids : List Nat) (hH : m.headers.length = H)
    (hbound : H + m.nodes.length + ids.length ≤ 2 ^ 32) :
    (buildRow d2s m prev row ids).1.headers.length = H ∧
    (buildRow d2s m prev row ids).1.nodes.length = m.nodes.length + ids.length ∧
    ∀ x, x < H →
      ((buildRow d2s m prev row ids).1.get x).l = (m.get x).l ∧
      ((buildRow d2s m prev row ids).1.get x).r = (m.get x).r ∧
      ((buildRow d2s m prev row ids).1.get x).col = (m.get x).col := by
  obtain ⟨g1, g2, g3, g4, g5⟩ :=
    buildCells_hdr d2s row H ids ⟨m, prev, none, none⟩ hH hbound
      (fun h hsome => Option.noConfusion hsome)
      (fun t hsome => Option.noConfusion hsome)
  unfold buildRow
  dsimp only
  split
  case _ hd tl hhd htl =>
      obtain ⟨hhd', hlen1⟩ := g3 hd hhd
      have htl' := g4 tl htl
      refine ⟨?_, ?_, ?_⟩
      · rw [(sameRC_attachHorizontal _ _ _).1, g1]
      · rw [(sameRC_attachHorizontal _ _ _).2.1, g2]
      · intro x hx
        have hne := attachH_get_ne
          (ids.foldl (buildCell d2s row) ⟨m, prev, none, none⟩).m tl hd x
          (by omega) (by omega)
        obtain ⟨e1, e2, e3⟩ := g5 x hx
        rw [hne]
        exact ⟨e1, e2, e3⟩
  case _ =>
    exact ⟨g1, g2, g5⟩

theorem buildRows_hdr (d2s : List Nat) (H : Nat) :
    ∀ (l : List (Nat × List Nat)) (acc : Matrix × List Nat),
      acc.1.headers.length = H →
      H + acc.1.nodes.length + (l.map (fun p => p.2)).flatten.length ≤ 2 ^ 32 →
      (l.foldl (fun (acc : Matrix × List Nat) p =>
        buildRow d2s acc.1 acc.2 (p.1 % 2 ^ 32) p.2) acc).1.headers.length = H ∧
      ∀ x, x < H →
        ((l.foldl (fun (acc : Matrix × List Nat) p =>
          buildRow d2s acc.1 acc.2 (p.1 % 2 ^ 32) p.2) acc).1.get x).l = (acc.1.get x).l ∧
        ((l.foldl (fun (acc : Matrix × List Nat) p =>
          buildRow d2s acc.1 acc.2 (p.1 % 2 ^ 32) p.2) acc).1.get x).r = (acc.1.get x).r ∧
        ((l.foldl (fun (acc : Matrix × List Nat) p =>
          buildRow d2s acc.1 acc.2 (p.1 % 2 ^ 32) p.2) acc).1.get x).col = (acc.1.get x).col
  | [], acc => by
    intro hH _
    exact ⟨hH, fun x _ => ⟨rfl, rfl, rfl⟩⟩
  | p :: l, acc => by
    intro hH hbound
    simp only [List.map_cons, List.flatten_cons, List.length_append] at hbound
    obtain ⟨h1, h2, h3⟩ :=
      buildRow_hdr d2s H (p.1 % 2 ^ 32) acc.1 acc.2 p.2 hH (by omega)
    obtain ⟨g1, g3⟩ := buildRows_hdr d2s H l (buildRow d2s acc.1 acc.2 (p.1 % 2 ^ 32) p.2)
      h1 (by rw [h2]; omega)
    rw [List.foldl_cons]
    refine ⟨g1, ?_⟩
    intro x hx
    obtain ⟨e1, e2, e3⟩ := g3 x hx
    obtain ⟨f1, f2, f3⟩ := h3 x hx
    exact ⟨e1.trans f1, e2.trans f2, e3.trans f3⟩

theorem foldAttachV_hdr (built2 : List Nat) :
    ∀ (l : List Nat) (m : Matrix),
      ((l.foldl (fun mm col => mm.attachVertical (built2.getD col 0) col) m)).headers.length
        = m.headers.length ∧
      ∀ x,
        (((l.foldl (fun mm col => mm.attachVertical (built2.getD col 0) col) m)).get x).l
          = (m.get x).l ∧
        (((l.foldl (fun mm col => mm.attachVertical (built2.getD col 0) col) m)).get x).r
          = (m.get x).r ∧
        (((l.foldl (fun mm col => mm.attachVertical (built2.getD col 0) col) m)).get x).col
          = (m.get x).col
  | [], m => ⟨rfl, fun x => ⟨rfl, rfl, rfl⟩⟩
  | c :: l, m => by
    obtain ⟨g1, g3⟩ := foldAttachV_hdr built2 l (m.attachVertical (built2.getD c 0) c)
    rw [List.foldl_cons]
    refine ⟨g1.trans (sameRC_attachVertical _ _ _).1, ?_⟩
    intro x
    obtain ⟨e1, e2, e3⟩ := g3 x
    exact ⟨e1.trans (attachV_l _ _ _ _), e2.trans (attachV_r _ _ _ _),
      e3.trans ((sameRC_attachVertical _ _ _).2.2 x).2⟩

theorem solverNew_hdr (rows : List (List Nat))
    (hb : (denseToSparse rows).length + 1 + rows.flatten.length ≤ 2 ^ 32)
    (h16 : (denseToSparse rows).length < 2 ^ 16) :
    (solverNew rows).headers.length = (denseToSparse rows).length + 1 ∧
    ∀ x, x < (denseToSparse rows).length + 1 →
      ((solverNew rows).get x).l = ((Matrix.new (denseToSparse rows).length).get x).l ∧
      ((solverNew rows).get x).r = ((Matrix.new (denseToSparse rows).length).get x).r ∧
      ((solverNew rows).get x).col =
        ((Matrix.new (denseToSparse rows).length).get x).col := by
  unfold solverNew
  dsimp only
  rw [Nat.mod_eq_of_lt h16]
  have hm0h : (Matrix.new (denseToSparse rows).length).headers.length =
      (denseToSparse rows).length + 1 := matrixNew_headers_length _
  have hm0n : (Matrix.new (denseToSparse rows).length).nodes.length = 0 := rfl
  have hflat : (rows.enum.map (fun p => p.2)).flatten.length = rows.flatten.length := by
    simp
  obtain ⟨g1, g3⟩ := buildRows_hdr (denseToSparse rows) ((denseToSparse rows).length + 1)
    rows.enum (Matrix.new (denseToSparse rows).length, List.range
      (Matrix.new (denseToSparse rows).length).headers.length)
    hm0h (by rw [hflat, hm0n]; omega)
  obtain ⟨f1, f3⟩ := foldAttachV_hdr
    (rows.enum.foldl (fun (acc : Matrix × List Nat) p =>
      buildRow (denseToSparse rows) acc.1 acc.2 (p.1 % 2 ^ 32) p.2)
      (Matrix.new (denseToSparse rows).length, List.range
        (Matrix.new (denseToSparse rows).length).headers.length)).2
    (List.range (rows.enum.foldl (fun (acc : Matrix × List Nat) p =>
      buildRow (denseToSparse rows) acc.1 acc.2 (p.1 % 2 ^ 32) p.2)
      (Matrix.new (denseToSparse rows).length, List.range
        (Matrix.new (denseToSparse rows).length).headers.length)).1.headers.length)
    (rows.enum.foldl (fun (acc : Matrix × List Nat) p =>
      buildRow (denseToSparse rows) acc.1 acc.2 (p.1 % 2 ^ 32) p.2)
      (Matrix.new (denseToSparse rows).length, List.range
        (Matrix.new (denseToSparse rows).length).headers.length)).1
  refine ⟨f1.trans g1, ?_⟩
  intro x hx
  obtain ⟨e1, e2, e3⟩ := f3 x
  obtain ⟨d1, d2, d3⟩ := g3 x hx
  exact ⟨e1.trans d1, e2.trans d2, e3.trans d3⟩

theorem solverNew_ring (rows : List (List Nat))
    (hN : 1 ≤ (denseToSparse rows).length)
    (h16 : (denseToSparse rows).length < 2 ^ 16)
    (hb : (denseToSparse rows).length + 1 + rows.flatten.length ≤ 2 ^ 32) :
    ((solverNew rows).walkRightList 0).map (solverNew rows).indexToColumn =
      List.range' 1 (denseToSparse rows).length := by
  obtain ⟨g1, g3⟩ := solverNew_hdr rows hb h16
  have hwalk : (solverNew rows).walkRightList 0 =
      List.range' 1 (denseToSparse rows).length := by
    refine ringWalkList (solverNew rows) (denseToSparse rows).length hN ?_ ?_ ?_
    · show (denseToSparse rows).length ≤
        (solverNew rows).headers.length + (solverNew rows).nodes.length
      omega
    · rw [(g3 0 (by omega)).2.1, matrixNew_get_zero]
    · intro k h1 h2
      rw [(g3 k (by omega)).2.1, matrixNew_get_col _ k h1 h2]
  rw [hwalk]
  have hcol : ∀ x ∈ List.range' 1 (denseToSparse rows).length,
      (solverNew rows).indexToColumn x = x := by
    intro x hxm
    have hx := List.mem_range'_1.mp hxm
    show ((solverNew rows).get x).col = x
    rw [(g3 x (by omega)).2.2, matrixNew_get_col _ x (by omega) (by omega)]
  calc (List.range' 1 (denseToSparse rows).length).map (solverNew rows).indexToColumn
      = (List.range' 1 (denseToSparse rows).length).map (fun x => x) :=
        List.map_congr_left hcol
    _ = List.range' 1 (denseToSparse rows).length := List.map_id' _

/-- C4: the branching column returned by `solve_inner`'s
`min_by_key` selection is the first column of the rightward walk from
the root achieving the minimum size (Rust's `min_by_key` keeps the
first of equally minimal elements); hence whenever that walk's column
list is strictly increasing, it is the smallest-ColumnId column among
the minima; and immediately after construction the walk's column list
is exactly `1, …, N` (strictly increasing), for any input within the
16/32-bit interface limits with at least one column. -/
theorem c4_column_selection (m : Matrix) (c : Nat) (h : m.chooseCol = some c) :
    (∃ pre post,
      (m.walkRightList 0).map m.indexToColumn = pre ++ c :: post ∧
      (∀ e ∈ pre, m.size c < m.size e) ∧
      (∀ e ∈ post, m.size c ≤ m.size e)) ∧
    (∀ e ∈ (m.walkRightList 0).map m.indexToColumn, m.size c ≤ m.size e) ∧
    (List.Pairwise (· < ·) ((m.walkRightList 0).map m.indexToColumn) →
      ∀ e ∈ (m.walkRightList 0).map m.indexToColumn, m.size e = m.size c → c ≤ e) ∧
    ∀ rows, 1 ≤ (denseToSparse rows).length →
      (denseToSparse rows).length < 2 ^ 16 →
      (denseToSparse rows).length + 1 + rows.flatten.length ≤ 2 ^ 32 →
      ((solverNew rows).walkRightList 0).map (solverNew rows).indexToColumn =
        List.range' 1 (denseToSparse rows).length ∧
      List.Pairwise (· < ·)
        (((solverNew rows).walkRightList 0).map (solverNew rows).indexToColumn) := by
  obtain ⟨pre, post, heq, hpre, hpost⟩ :=
    minByFirst_spec m.size ((m.walkRightList 0).map m.indexToColumn) c h
  have hall : ∀ e ∈ (m.walkRightList 0).map m.indexToColumn, m.size c ≤ m.size e := by
    intro e he
    rw [heq] at he
    rcases List.mem_append.mp he with he' | he'
    · exact le_of_lt (hpre e he')
    rcases List.mem_cons.mp he' with rfl | he''
    · exact le_refl _
    · exact hpost e he''
  refine ⟨⟨pre, post, heq, hpre, hpost⟩, hall, ?_, ?_⟩
  · intro hsorted e he hsz
    rw [heq] at he hsorted
    rcases List.mem_append.mp he with he' | he'
    · exact absurd hsz (by have := hpre e he'; omega)
    rcases List.mem_cons.mp he' with rfl | he''
    · exact le_refl _
    · exact le_of_lt ((List.pairwise_cons.mp
        (List.pairwise_append.mp hsorted).2.1).1 e he'')
  · intro rows h1 h2 h3
    refine ⟨solverNew_ring rows h1 h2 h3, ?_⟩
    rw [solverNew_ring rows h1 h2 h3]
    exact List.pairwise_lt_range' 1 _

/-- Witness for `c4_column_selection` on the 2-column instance
`[[0], [1]]` (both sizes 1: the tie goes to column 1). -/
theorem c4_column_selection_witness :
    (solverNew [[0], [1]]).chooseCol = some 1 ∧
    ((∃ pre post,
      ((solverNew [[0], [1]]).walkRightList 0).map (solverNew [[0], [1]]).indexToColumn
        = pre ++ 1 :: post ∧
      (∀ e ∈ pre, (solverNew [[0], [1]]).size 1 < (solverNew [[0], [1]]).size e) ∧
      (∀ e ∈ post, (solverNew [[0], [1]]).size 1 ≤ (solverNew [[0], [1]]).size e)) ∧
    (∀ e ∈ ((solverNew [[0], [1]]).walkRightList 0).map
        (solverNew [[0], [1]]).indexToColumn,
      (solverNew [[0], [1]]).size 1 ≤ (solverNew [[0], [1]]).size e) ∧
    (List.Pairwise (· < ·) (((solverNew [[0], [1]]).walkRightList 0).map
        (solverNew [[0], [1]]).indexToColumn) →
      ∀ e ∈ ((solverNew [[0], [1]]).walkRightList 0).map
        (solverNew [[0], [1]]).indexToColumn,
        (solverNew [[0], [1]]).size e = (solverNew [[0], [1]]).size 1 → 1 ≤ e) ∧
    ∀ rows, 1 ≤ (denseToSparse rows).length →
      (denseToSparse rows).length < 2 ^ 16 →
      (denseToSparse rows).length + 1 + rows.flatten.length ≤ 2 ^ 32 →
      ((solverNew rows).walkRightList 0).map (solverNew rows).indexToColumn =
        List.range' 1 (denseToSparse rows).length ∧
      List.Pairwise (· < ·)
        (((solverNew rows).walkRightList 0).map (solverNew rows).indexToColumn)) :=
  ⟨by decide, c4_column_selection (solverNew [[0], [1]]) 1 (by decide)⟩

theorem mem_dataIdx (m : Matrix) (n : Nat) :
    n ∈ dataIdx m ↔ m.headers.length ≤ n ∧ n < m.total := by
  unfold dataIdx Matrix.total
  simp only [List.mem_map, List.mem_range]
  constructor
  · rintro ⟨t, ht, rfl⟩
    omega
  · rintro ⟨h1, h2⟩
    exact ⟨n - m.headers.length, by omega, by omega⟩

theorem dataIdx_append (m m' : Matrix)
    (hh : m'.headers.length = m.headers.length)
    (hn : m'.nodes.length = m.nodes.length + 1) :
    dataIdx m' = dataIdx m ++ [m.headers.length + m.nodes.length] := by
  unfold dataIdx
  rw [hh, hn, List.range_succ, List.map_append]
  rfl

theorem colNodes_congr (m m' : Matrix) (c : Nat)
    (hh : m'.headers.length = m.headers.length)
    (hn : m'.nodes.length = m.nodes.length)
    (hcol : ∀ n, m.headers.length ≤ n → n < m.total → (m'.get n).col = (m.get n).col) :
    colNodes m' c = colNodes m c := by
  unfold colNodes
  have hidx : dataIdx m' = dataIdx m := by
    unfold dataIdx
    rw [hh, hn]
  rw [hidx]
  refine List.filter_congr ?_
  intro n hn'
  obtain ⟨h1, h2⟩ := (mem_dataIdx m n).mp hn'
  simp only [decide_eq_decide]
  rw [hcol n h1 h2]

theorem colNodes_append (m m' : Matrix) (c c₀ : Nat)
    (hh : m'.headers.length = m.headers.length)
    (hn : m'.nodes.length = m.nodes.length + 1)
    (hcol : ∀ n, m.headers.length ≤ n → n < m.total → (m'.get n).col = (m.get n).col)
    (hnew : (m'.get (m.headers.length + m.nodes.length)).col = c₀) :
    colNodes m' c = colNodes m c ++ if c₀ = c then [m.headers.length + m.nodes.length] else [] := by
  unfold colNodes
  rw [dataIdx_append m m' hh hn, List.filter_append]
  have h1 : (dataIdx m).filter (fun n => decide ((m'.get n).col = c)) =
      (dataIdx m).filter (fun n => decide ((m.get n).col = c)) := by
    refine List.filter_congr ?_
    intro n hn'
    obtain ⟨g1, g2⟩ := (mem_dataIdx m n).mp hn'
    simp only [decide_eq_decide]
    rw [hcol n g1 g2]
  rw [h1]
  congr 1
  by_cases hc : c₀ = c
  · rw [if_pos hc]
    have : decide ((m'.get (m.headers.length + m.nodes.length)).col = c) = true := by
      rw [hnew, hc]
      simp
    simp [List.filter, this]
  · rw [if_neg hc]
    have : decide ((m'.get (m.headers.length + m.nodes.length)).col = c) = false := by
      rw [hnew]
      simpa using hc
    simp [List.filter, this]

theorem dChain_congr (m m' : Matrix) :
    ∀ (xs : List Nat) (a : Nat),
      (∀ x ∈ a :: xs, (m'.get x).u = (m.get x).u ∧ (m'.get x).d = (m.get x).d) →
      dChain m a xs → dChain m' a xs
  | [], a => fun _ _ => trivial
  | x :: xs, a => by
    intro hpres hch
    obtain ⟨hl, hch'⟩ := hch
    refine ⟨⟨?_, ?_⟩, ?_⟩
    · rw [(hpres a (by simp)).2]
      exact hl.1
    · rw [(hpres x (by simp)).1]
      exact hl.2
    · refine dChain_congr m m' xs x ?_ hch'
      intro y hy
      exact hpres y (by simp at hy ⊢; tauto)

theorem dChain_snoc (m : Matrix) :
    ∀ (xs : List Nat) (a y : Nat),
      dChain m a xs → dlink m (xs.getLastD a) y → dChain m a (xs ++ [y])
  | [], a, y => by
    intro _ hl
    exact ⟨hl, trivial⟩
  | x :: xs, a, y => by
    intro hch hl
    obtain ⟨h1, h2⟩ := hch
    refine ⟨h1, dChain_snoc m xs x y h2 ?_⟩
    rw [List.getLastD_cons] at hl
    exact hl

theorem dChain_close (m : Matrix) :
    ∀ (xs : List Nat) (a b : Nat),
      dChain m a xs → dlink m (xs.getLastD a) b → dPath m a xs b
  | [], a, b => fun _ hl => hl
  | x :: xs, a, b => by
    intro hch hl
    obtain ⟨h1, h2⟩ := hch
    rw [List.getLastD_cons] at hl
    exact ⟨h1, dChain_close m xs x b h2 hl⟩

theorem rChain_congr (m m' : Matrix) :
    ∀ (xs : List Nat) (a : Nat),
      (∀ x ∈ a :: xs, (m'.get x).l = (m.get x).l ∧ (m'.get x).r = (m.get x).r) →
      rChain m a xs → rChain m' a xs
  | [], a => fun _ _ => trivial
  | x :: xs, a => by
    intro hpres hch
    obtain ⟨hl, hch'⟩ := hch
    refine ⟨⟨?_, ?_⟩, ?_⟩
    · rw [(hpres a (by simp)).2]
      exact hl.1
    · rw [(hpres x (by simp)).1]
      exact hl.2
    · refine rChain_congr m m' xs x ?_ hch'
      intro y hy
      exact hpres y (by simp at hy ⊢; tauto)

theorem rChain_snoc (m : Matrix) :
    ∀ (xs : List Nat) (a y : Nat),
      rChain m a xs → rlink m (xs.getLastD a) y → rChain m a (xs ++ [y])
  | [], a, y => by
    intro _ hl
    exact ⟨hl, trivial⟩
  | x :: xs, a, y => by
    intro hch hl
    obtain ⟨h1, h2⟩ := hch
    refine ⟨h1, rChain_snoc m xs x y h2 ?_⟩
    rw [List.getLastD_cons] at hl
    exact hl

theorem rChain_close (m : Matrix) :
    ∀ (xs : List Nat) (a b : Nat),
      rChain m a xs → rlink m (xs.getLastD a) b → rPath m a xs b
  | [], a, b => fun _ hl => hl
  | x :: xs, a, b => by
    intro hch hl
    obtain ⟨h1, h2⟩ := hch
    rw [List.getLastD_cons] at hl
    exact ⟨h1, rChain_close m xs x b h2 hl⟩

theorem mem_insertSorted (x s : Nat) :
    ∀ (l : List Nat), s ∈ insertSorted x l ↔ s = x ∨ s ∈ l
  | [] => by simp [insertSorted]
  | y :: ys => by
    unfold insertSorted
    by_cases h1 : x = y
    · rw [if_pos h1]
      subst h1
      simp only [List.mem_cons]
      tauto
    · rw [if_neg h1]
      by_cases h2 : x < y
      · rw [if_pos h2]
        simp
      · rw [if_neg h2]
        simp only [List.mem_cons, mem_insertSorted x s ys]
        tauto

theorem mem_denseToSparse (rows : List (List Nat)) (s : Nat)
    (h : s ∈ rows.flatten) : s ∈ denseToSparse rows := by
  unfold denseToSparse
  generalize rows.flatten = l at h ⊢
  induction l with
  | nil => cases h
  | cons y ys ih =>
    rw [List.foldr_cons, mem_insertSorted]
    rcases List.mem_cons.mp h with rfl | h'
    · exact Or.inl rfl
    · exact Or.inr (ih h')

theorem sparseToDense_bounds (d2s : List Nat) (s : Nat) (h : s ∈ d2s) :
    1 ≤ sparseToDense d2s s ∧ sparseToDense d2s s < d2s.length + 1 := by
  unfold sparseToDense
  have := List.indexOf_lt_length.mpr h
  omega

theorem attachH_u (m : Matrix) (a b x : Nat) :
    ((m.attachHorizontal a b).get x).u = (m.get x).u := by
  show ((((m.setR a b).setL b a)).get x).u = (m.get x).u
  rw [setL_u, setR_u]

theorem attachH_d (m : Matrix) (a b x : Nat) :
    ((m.attachHorizontal a b).get x).d = (m.get x).d := by
  show ((((m.setR a b).setL b a)).get x).d = (m.get x).d
  rw [setL_d, setR_d]

theorem attachV_u (m : Matrix) (a b x : Nat) :
    ((m.attachVertical a b).get x).u =
      if x = b ∧ b < m.total then a else (m.get x).u := by
  show ((((m.setD a b).setU b a)).get x).u = _
  rw [setU_u, Matrix.total_setD, setD_u]

theorem attachV_d (m : Matrix) (a b x : Nat) :
    ((m.attachVertical a b).get x).d =
      if x = a ∧ a < m.total then b else (m.get x).d := by
  show ((((m.setD a b).setU b a)).get x).d = _
  rw [setU_d, setD_d]

theorem size_setU (m : Matrix) (i v c : Nat) : (m.setU i v).size c = m.size c :=
  Matrix.size_modifyNode m i _ c

theorem size_setD (m : Matrix) (i v c : Nat) : (m.setD i v).size c = m.size c :=
  Matrix.size_modifyNode m i _ c

theorem size_setL (m : Matrix) (i v c : Nat) : (m.setL i v).size c = m.size c :=
  Matrix.size_modifyNode m i _ c

theorem size_setR (m : Matrix) (i v c : Nat) : (m.setR i v).size c = m.size c :=
  Matrix.size_modifyNode m i _ c

theorem size_attachV (m : Matrix) (a b c : Nat) :
    (m.attachVertical a b).size c = m.size c := by
  show (((m.setD a b).setU b a)).size c = m.size c
  rw [size_setU, size_setD]

theorem size_attachH (m : Matrix) (a b c : Nat) :
    (m.attachHorizontal a b).size c = m.size c := by
  show (((m.setR a b).setL b a)).size c = m.size c
  rw [size_setL, size_setR]

theorem total_attachV (m : Matrix) (a b : Nat) :
    (m.attachVertical a b).total = m.total := by
  show (((m.setD a b).setU b a)).total = m.total
  rw [Matrix.total_setU, Matrix.total_setD]

theorem total_attachH (m : Matrix) (a b : Nat) :
    (m.attachHorizontal a b).total = m.total := by
  show (((m.setR a b).setL b a)).total = m.total
  rw [Matrix.total_setL, Matrix.total_setR]

theorem push_get_new (m : Matrix) (nd : Node) :
    (m.push nd).1.get (m.headers.length + m.nodes.length) = nd := by
  show ((m.push nd).1.lookup? (m.headers.length + m.nodes.length)).getD defaultNode = nd
  show (if m.headers.length + m.nodes.length < m.headers.length
        then (m.headers.get? (m.headers.length + m.nodes.length)).map Header.node
        else (m.nodes ++ [nd]).get? (m.headers.length + m.nodes.length - m.headers.length)).getD
          defaultNode = nd
  rw [if_neg (by omega), show m.headers.length + m.nodes.length - m.headers.length
    = m.nodes.length from by omega, List.get?_concat_length]
  rfl

theorem size_push (m : Matrix) (nd : Node) (c : Nat) :
    (m.push nd).1.size c = m.size c := rfl

theorem total_push (m : Matrix) (nd : Node) :
    (m.push nd).1.total = m.total + 1 := by
  show m.headers.length + (m.nodes ++ [nd]).length = m.headers.length + m.nodes.length + 1
  rw [List.length_append]
  rfl

theorem colNodes_mem_bounds (m : Matrix) (c x : Nat) (h : x ∈ colNodes m c) :
    m.headers.length ≤ x ∧ x < m.total :=
  (mem_dataIdx m x).mp (List.mem_of_mem_filter h)

theorem colNodes_mem_col (m : Matrix) (c x : Nat) (h : x ∈ colNodes m c) :
    (m.get x).col = c := by
  have := List.of_mem_filter h
  simpa using this

theorem colNodes_nodup (m : Matrix) (c : Nat) : (colNodes m c).Nodup := by
  refine List.Nodup.filter _ (List.Nodup.map ?_ (List.nodup_range _))
  intro a b hab
  have hab' : m.headers.length + a = m.headers.length + b := hab
  omega

theorem dChain_congr_except (m m' : Matrix) :
    ∀ (xs : List Nat) (a z : Nat),
      xs.Nodup → a ∉ xs →
      (∀ x ∈ xs, (m'.get x).u = (m.get x).u) →
      (∀ x ∈ a :: xs, x ≠ z → (m'.get x).d = (m.get x).d) →
      (z ∉ a :: xs ∨ z = xs.getLastD a) →
      dChain m a xs → dChain m' a xs
  | [], _, _ => fun _ _ _ _ _ _ => trivial
  | x :: xs', a, z => by
    intro hnd hna hu hd hz hch
    obtain ⟨h1, h2⟩ := hch
    have haz : a ≠ z := by
      rcases hz with hz | hz
      · intro he
        exact hz (he ▸ List.mem_cons_self a (x :: xs'))
      · intro he
        rw [List.getLastD_cons] at hz
        have : z ∈ x :: xs' := hz ▸ getLastD_mem_cons xs' x
        exact hna (he ▸ this)
    refine ⟨⟨?_, ?_⟩, ?_⟩
    · rw [hd a (List.mem_cons_self _ _) haz]
      exact h1.1
    · rw [hu x (List.mem_cons_self _ _)]
      exact h1.2
    · refine dChain_congr_except m m' xs' x z
        ((List.nodup_cons.mp hnd).2)
        ((List.nodup_cons.mp hnd).1)
        (fun y hy => hu y (List.mem_cons_of_mem _ hy))
        (fun y hy hyz => hd y (by
          rcases List.mem_cons.mp hy with rfl | hy'
          · exact List.mem_cons_of_mem _ (List.mem_cons_self _ _)
          · exact List.mem_cons_of_mem _ (List.mem_cons_of_mem _ hy')) hyz)
        ?_ h2
      rcases hz with hz | hz
      · exact Or.inl (fun hmem => hz (List.mem_cons_of_mem _ hmem))
      · rw [List.getLastD_cons] at hz
        exact Or.inr hz

theorem getD_set_eq : ∀ (l : List Nat) (i v d : Nat), i < l.length →
    (l.set i v).getD i d = v
  | [], i, v, d => by
    intro h
    exact absurd h (by simp)
  | x :: xs, 0, v, d => fun _ => rfl
  | x :: xs, i + 1, v, d => fun h => getD_set_eq xs i v d (by simpa using h)

theorem getD_set_ne : ∀ (l : List Nat) (i j v d : Nat), j ≠ i →
    (l.set i v).getD j d = l.getD j d
  | [], _, _, _, _ => fun _ => rfl
  | x :: xs, 0, 0, v, d => fun h => absurd rfl h
  | x :: xs, 0, j + 1, v, d => fun _ => rfl
  | x :: xs, i + 1, 0, v, d => fun _ => rfl
  | x :: xs, i + 1, j + 1, v, d => fun h => getD_set_ne xs i j v d (by omega)

theorem buildCell_core (st : BuildSt) (M' : Matrix) (H c0 r up : Nat)
    (hH : st.m.headers.length = H)
    (hc0 : 1 ≤ c0 ∧ c0 < H)
    (hup : up = (colNodes st.m c0).getLastD c0)
    (hh : M'.headers.length = H)
    (hn : M'.nodes.length = st.m.nodes.length + 1)
    (hgu : ∀ x, x < st.m.total → (M'.get x).u = (st.m.get x).u)
    (hgd : ∀ x, x < st.m.total → x ≠ up → (M'.get x).d = (st.m.get x).d)
    (hdup : (M'.get up).d = H + st.m.nodes.length)
    (huidx : (M'.get (H + st.m.nodes.length)).u = up)
    (hrc : ∀ x, x < st.m.total →
      (M'.get x).row = (st.m.get x).row ∧ (M'.get x).col = (st.m.get x).col)
    (hnewc : (M'.get (H + st.m.nodes.length)).col = c0)
    (hsz : ∀ c, M'.size c = if c = c0 then st.m.size c0 + 1 else st.m.size c)
    (hinv : ∀ c, 1 ≤ c → c < H →
      dChain st.m c (colNodes st.m c) ∧ st.m.size c = (colNodes st.m c).length) :
    ∀ c, 1 ≤ c → c < H →
      colNodes M' c = colNodes st.m c ++ (if c0 = c then [H + st.m.nodes.length] else []) ∧
      dChain M' c (colNodes M' c) ∧
      M'.size c = (colNodes M' c).length := by
  have htotle : st.m.headers.length ≤ st.m.total := by
    show st.m.headers.length ≤ st.m.headers.length + st.m.nodes.length
    omega
  have happ : ∀ c, colNodes M' c =
      colNodes st.m c ++ (if c0 = c then [H + st.m.nodes.length] else []) := by
    intro c
    rw [← hH]
    refine colNodes_append st.m M' c c0 (hh.trans hH.symm) hn ?_ ?_
    · intro n h1 h2
      exact (hrc n h2).2
    · rw [hH]
      exact hnewc
  have hupmem : up = c0 ∨ up ∈ colNodes st.m c0 := by
    rw [hup]
    rcases List.mem_cons.mp (getLastD_mem_cons (colNodes st.m c0) c0) with h | h
    · exact Or.inl h
    · exact Or.inr h
  intro c h1 h2
  obtain ⟨hch, hsze⟩ := hinv c h1 h2
  have hmemb : ∀ x ∈ colNodes st.m c, st.m.headers.length ≤ x ∧ x < st.m.total :=
    fun x hx => colNodes_mem_bounds st.m c x hx
  have hnotin : (c : Nat) ∉ colNodes st.m c := by
    intro hmem
    have := (hmemb c hmem).1
    omega
  by_cases hc : c0 = c
  · subst hc
    have hHc := hH
    refine ⟨happ c0, ?_, ?_⟩
    · rw [happ c0, if_pos rfl]
      have hold : dChain M' c0 (colNodes st.m c0) := by
        refine dChain_congr_except st.m M' (colNodes st.m c0) c0 up
          (colNodes_nodup st.m c0) hnotin ?_ ?_ (Or.inr hup) hch
        · intro x hx
          exact hgu x (hmemb x hx).2
        · intro x hx hxz
          rcases List.mem_cons.mp hx with rfl | hx'
          · exact hgd x (by omega) hxz
          · exact hgd x (hmemb x hx').2 hxz
      refine dChain_snoc M' (colNodes st.m c0) c0 _ hold ?_
      rw [← hup]
      exact ⟨hdup, huidx⟩
    · rw [happ c0, if_pos rfl, hsz c0, if_pos rfl, List.length_append, hsze]
      rfl
  · refine ⟨happ c, ?_, ?_⟩
    · rw [happ c, if_neg hc, List.append_nil]
      have hzout : up ∉ (c : Nat) :: colNodes st.m c := by
        intro hmem
        rcases hupmem with rfl | hin
        · rcases List.mem_cons.mp hmem with h | h
          · exact hc h
          · have := (hmemb _ h).1
            omega
        · have hcolup := colNodes_mem_col st.m c0 up hin
          rcases List.mem_cons.mp hmem with rfl | h
          · have := (colNodes_mem_bounds st.m c0 up hin).1
            omega
          · have := colNodes_mem_col st.m c up h
            rw [this] at hcolup
            exact hc hcolup.symm
      refine dChain_congr_except st.m M' (colNodes st.m c) c up
        (colNodes_nodup st.m c) hnotin ?_ ?_ (Or.inl hzout) hch
      · intro x hx
        exact hgu x (hmemb x hx).2
      · intro x hx hxz
        rcases List.mem_cons.mp hx with rfl | hx'
        · exact hgd x (by omega) hxz
        · exact hgd x (hmemb x hx').2 hxz
    · rw [happ c, if_neg hc, List.append_nil, hsz c, if_neg (fun he => hc he.symm), hsze]

theorem colNodes_length_le (m : Matrix) (c : Nat) :
    (colNodes m c).length ≤ m.nodes.length := by
  refine le_trans (List.length_filter_le _ _) ?_
  unfold dataIdx
  simp

set_option linter.constructorNameAsVariable false in
set_option maxHeartbeats 2000000 in
theorem buildCell_chains (d2s : List Nat) (r sp : Nat) (st : BuildSt) (H : Nat)
    (hH : st.m.headers.length = H)
    (hP : st.prev.length = H)
    (hb : H + st.m.nodes.length < 2 ^ 32)
    (hc0 : 1 ≤ sparseToDense d2s sp ∧ sparseToDense d2s sp < H)
    (hprev : ∀ c, 1 ≤ c → c < H → st.prev.getD c 0 = (colNodes st.m c).getLastD c)
    (hinv : ∀ c, 1 ≤ c → c < H →
      dChain st.m c (colNodes st.m c) ∧ st.m.size c = (colNodes st.m c).length) :
    (buildCell d2s r st sp).m.headers.length = H ∧
    (buildCell d2s r st sp).m.nodes.length = st.m.nodes.length + 1 ∧
    (buildCell d2s r st sp).prev.length = H ∧
    (∀ n, n < st.m.total →
      ((buildCell d2s r st sp).m.get n).row = (st.m.get n).row ∧
      ((buildCell d2s r st sp).m.get n).col = (st.m.get n).col) ∧
    ((buildCell d2s r st sp).m.get (H + st.m.nodes.length)).row = r ∧
    ((buildCell d2s r st sp).m.get (H + st.m.nodes.length)).col = sparseToDense d2s sp ∧
    ∀ c, 1 ≤ c → c < H →
      dChain (buildCell d2s r st sp).m c (colNodes (buildCell d2s r st sp).m c) ∧
      (buildCell d2s r st sp).m.size c = (colNodes (buildCell d2s r st sp).m c).length ∧
      (buildCell d2s r st sp).prev.getD c 0 =
        (colNodes (buildCell d2s r st sp).m c).getLastD c ∧
      colNodes (buildCell d2s r st sp).m c = colNodes st.m c ++
        (if sparseToDense d2s sp = c then [H + st.m.nodes.length] else []) := by
  unfold buildCell
  cases hh : st.head with
  | none =>
    dsimp only [Matrix.push]
    have hst : st.m.total = H + st.m.nodes.length := by
      show st.m.headers.length + st.m.nodes.length = H + st.m.nodes.length
      rw [hH]
    have hm1h : (st.m.updateSize (sparseToDense d2s sp) 1).headers.length = H := by
      rw [Matrix.updateSize_headers_length, hH]
    have hm1n : (st.m.updateSize (sparseToDense d2s sp) 1).nodes.length =
        st.m.nodes.length := by
      rw [Matrix.updateSize_nodes]
    have hidx : ((st.m.updateSize (sparseToDense d2s sp) 1).headers.length +
        (st.m.updateSize (sparseToDense d2s sp) 1).nodes.length) % 2 ^ 32
        = H + st.m.nodes.length := by
      rw [hm1h, hm1n]
      exact Nat.mod_eq_of_lt hb
    rw [hidx]
    have hm2get : ∀ x, x < st.m.total →
        (Matrix.mk (st.m.updateSize (sparseToDense d2s sp) 1).headers
          ((st.m.updateSize (sparseToDense d2s sp) 1).nodes ++
            [Node.dangling r (sparseToDense d2s sp)])).get x =
        (st.m.updateSize (sparseToDense d2s sp) 1).get x := by
      intro x hx
      refine push_get_lt (st.m.updateSize (sparseToDense d2s sp) 1)
        (Node.dangling r (sparseToDense d2s sp)) x ?_
      show x < (st.m.updateSize (sparseToDense d2s sp) 1).headers.length +
        (st.m.updateSize (sparseToDense d2s sp) 1).nodes.length
      rw [hm1h, hm1n]
      omega
    have hm2new : (Matrix.mk (st.m.updateSize (sparseToDense d2s sp) 1).headers
        ((st.m.updateSize (sparseToDense d2s sp) 1).nodes ++
          [Node.dangling r (sparseToDense d2s sp)])).get (H + st.m.nodes.length) =
        Node.dangling r (sparseToDense d2s sp) := by
      have hp := push_get_new (st.m.updateSize (sparseToDense d2s sp) 1)
        (Node.dangling r (sparseToDense d2s sp))
      rw [hm1h, hm1n] at hp
      exact hp
    have hm2tot : (Matrix.mk (st.m.updateSize (sparseToDense d2s sp) 1).headers
        ((st.m.updateSize (sparseToDense d2s sp) 1).nodes ++
          [Node.dangling r (sparseToDense d2s sp)])).total = st.m.total + 1 := by
      refine (total_push (st.m.updateSize (sparseToDense d2s sp) 1)
        (Node.dangling r (sparseToDense d2s sp))).trans ?_
      rw [Matrix.total_updateSize]
    have hup_lt : st.prev.getD (sparseToDense d2s sp) 0 < st.m.total + 1 := by
      rw [hprev _ hc0.1 hc0.2]
      rcases List.mem_cons.mp (getLastD_mem_cons
        (colNodes st.m (sparseToDense d2s sp)) (sparseToDense d2s sp)) with h | h
      · rw [h]
        omega
      · have := (colNodes_mem_bounds _ _ _ h).2
        omega
    have hAh : ((Matrix.mk (st.m.updateSize (sparseToDense d2s sp) 1).headers
        ((st.m.updateSize (sparseToDense d2s sp) 1).nodes ++
          [Node.dangling r (sparseToDense d2s sp)])).attachVertical
        (st.prev.getD (sparseToDense d2s sp) 0) (H + st.m.nodes.length)).headers.length = H :=
      (sameRC_attachVertical _ _ _).1.trans hm1h
    have hAn : ((Matrix.mk (st.m.updateSize (sparseToDense d2s sp) 1).headers
        ((st.m.updateSize (sparseToDense d2s sp) 1).nodes ++
          [Node.dangling r (sparseToDense d2s sp)])).attachVertical
        (st.prev.getD (sparseToDense d2s sp) 0) (H + st.m.nodes.length)).nodes.length = st.m.nodes.length + 1 := by
      refine (sameRC_attachVertical _ _ _).2.1.trans ?_
      show ((st.m.updateSize (sparseToDense d2s sp) 1).nodes ++
        [Node.dangling r (sparseToDense d2s sp)]).length = st.m.nodes.length + 1
      rw [List.length_append, hm1n]
      rfl
    have hAgu : ∀ x, x < st.m.total → (((Matrix.mk (st.m.updateSize (sparseToDense d2s sp) 1).headers
        ((st.m.updateSize (sparseToDense d2s sp) 1).nodes ++
          [Node.dangling r (sparseToDense d2s sp)])).attachVertical
        (st.prev.getD (sparseToDense d2s sp) 0) (H + st.m.nodes.length)).get x).u = (st.m.get x).u := by
      intro x hx
      rw [attachV_u, if_neg (by
        rintro ⟨hcon, -⟩
        omega), hm2get x hx, Matrix.get_updateSize]
    have hAgd : ∀ x, x < st.m.total → x ≠ st.prev.getD (sparseToDense d2s sp) 0 →
        (((Matrix.mk (st.m.updateSize (sparseToDense d2s sp) 1).headers
        ((st.m.updateSize (sparseToDense d2s sp) 1).nodes ++
          [Node.dangling r (sparseToDense d2s sp)])).attachVertical
        (st.prev.getD (sparseToDense d2s sp) 0) (H + st.m.nodes.length)).get x).d = (st.m.get x).d := by
      intro x hx hxu
      rw [attachV_d, if_neg (by
        rintro ⟨hcon, -⟩
        exact hxu hcon), hm2get x hx, Matrix.get_updateSize]
    have hAdup : (((Matrix.mk (st.m.updateSize (sparseToDense d2s sp) 1).headers
        ((st.m.updateSize (sparseToDense d2s sp) 1).nodes ++
          [Node.dangling r (sparseToDense d2s sp)])).attachVertical
        (st.prev.getD (sparseToDense d2s sp) 0) (H + st.m.nodes.length)).get (st.prev.getD (sparseToDense d2s sp) 0)).d =
        H + st.m.nodes.length := by
      rw [attachV_d, if_pos ⟨rfl, by rw [hm2tot]; exact hup_lt⟩]
    have hAuidx : (((Matrix.mk (st.m.updateSize (sparseToDense d2s sp) 1).headers
        ((st.m.updateSize (sparseToDense d2s sp) 1).nodes ++
          [Node.dangling r (sparseToDense d2s sp)])).attachVertical
        (st.prev.getD (sparseToDense d2s sp) 0) (H + st.m.nodes.length)).get (H + st.m.nodes.length)).u =
        st.prev.getD (sparseToDense d2s sp) 0 := by
      rw [attachV_u, if_pos ⟨rfl, by rw [hm2tot]; omega⟩]
    have hArc : ∀ x, x < st.m.total →
        (((Matrix.mk (st.m.updateSize (sparseToDense d2s sp) 1).headers
        ((st.m.updateSize (sparseToDense d2s sp) 1).nodes ++
          [Node.dangling r (sparseToDense d2s sp)])).attachVertical
        (st.prev.getD (sparseToDense d2s sp) 0) (H + st.m.nodes.length)).get x).row = (st.m.get x).row ∧
        (((Matrix.mk (st.m.updateSize (sparseToDense d2s sp) 1).headers
        ((st.m.updateSize (sparseToDense d2s sp) 1).nodes ++
          [Node.dangling r (sparseToDense d2s sp)])).attachVertical
        (st.prev.getD (sparseToDense d2s sp) 0) (H + st.m.nodes.length)).get x).col = (st.m.get x).col := by
      intro x hx
      obtain ⟨hr1, hc1⟩ := (sameRC_attachVertical (Matrix.mk
        (st.m.updateSize (sparseToDense d2s sp) 1).headers
        ((st.m.updateSize (sparseToDense d2s sp) 1).nodes ++
          [Node.dangling r (sparseToDense d2s sp)]))
        (st.prev.getD (sparseToDense d2s sp) 0) (H + st.m.nodes.length)).2.2 x
      rw [hr1, hc1, hm2get x hx, Matrix.get_updateSize]
      exact ⟨rfl, rfl⟩
    have hAnew : (((Matrix.mk (st.m.updateSize (sparseToDense d2s sp) 1).headers
        ((st.m.updateSize (sparseToDense d2s sp) 1).nodes ++
          [Node.dangling r (sparseToDense d2s sp)])).attachVertical
        (st.prev.getD (sparseToDense d2s sp) 0) (H + st.m.nodes.length)).get (H + st.m.nodes.length)).row = r ∧
        (((Matrix.mk (st.m.updateSize (sparseToDense d2s sp) 1).headers
        ((st.m.updateSize (sparseToDense d2s sp) 1).nodes ++
          [Node.dangling r (sparseToDense d2s sp)])).attachVertical
        (st.prev.getD (sparseToDense d2s sp) 0) (H + st.m.nodes.length)).get (H + st.m.nodes.length)).col = sparseToDense d2s sp := by
      obtain ⟨hr1, hc1⟩ := (sameRC_attachVertical (Matrix.mk
        (st.m.updateSize (sparseToDense d2s sp) 1).headers
        ((st.m.updateSize (sparseToDense d2s sp) 1).nodes ++
          [Node.dangling r (sparseToDense d2s sp)]))
        (st.prev.getD (sparseToDense d2s sp) 0) (H + st.m.nodes.length)).2.2
        (H + st.m.nodes.length)
      rw [hr1, hc1, hm2new]
      exact ⟨rfl, rfl⟩
    have hAsz : ∀ c, ((Matrix.mk (st.m.updateSize (sparseToDense d2s sp) 1).headers
        ((st.m.updateSize (sparseToDense d2s sp) 1).nodes ++
          [Node.dangling r (sparseToDense d2s sp)])).attachVertical
        (st.prev.getD (sparseToDense d2s sp) 0) (H + st.m.nodes.length)).size c =
        if c = sparseToDense d2s sp then st.m.size (sparseToDense d2s sp) + 1
        else st.m.size c := by
      intro c
      rw [size_attachV]
      show (st.m.updateSize (sparseToDense d2s sp) 1).size c = _
      rw [size_updateSize]
      have hsb : st.m.size (sparseToDense d2s sp) ≤ st.m.nodes.length := by
        rw [(hinv _ hc0.1 hc0.2).2]
        exact colNodes_length_le st.m _
      by_cases hcc : c = sparseToDense d2s sp
      · rw [if_pos ⟨hcc, by rw [hH]; exact hc0.2⟩, if_pos hcc]
        omega
      · rw [if_neg (by
          rintro ⟨hcon, -⟩
          exact hcc hcon), if_neg hcc]
    have hcore := buildCell_core st ((Matrix.mk (st.m.updateSize (sparseToDense d2s sp) 1).headers
        ((st.m.updateSize (sparseToDense d2s sp) 1).nodes ++
          [Node.dangling r (sparseToDense d2s sp)])).attachVertical
        (st.prev.getD (sparseToDense d2s sp) 0) (H + st.m.nodes.length)) H (sparseToDense d2s sp) r
      (st.prev.getD (sparseToDense d2s sp) 0) hH hc0
      (hprev _ hc0.1 hc0.2) hAh hAn hAgu hAgd hAdup hAuidx hArc hAnew.2 hAsz
      (fun c h1 h2 => hinv c h1 h2)
    refine ⟨hAh, hAn, by rw [List.length_set, hP], hArc, hAnew.1, hAnew.2, ?_⟩
    intro c h1 h2
    obtain ⟨he, hch, hsz⟩ := hcore c h1 h2
    refine ⟨hch, hsz, ?_, he⟩
    by_cases hcc : sparseToDense d2s sp = c
    · subst hcc
      rw [getD_set_eq _ _ _ _ (by rw [hP]; exact h2), he, if_pos rfl,
        getLastD_concat]
    · rw [getD_set_ne _ _ _ _ _ (fun hcon => hcc hcon.symm), he, if_neg hcc,
        List.append_nil, hprev c h1 h2]
  | some h0 =>
    dsimp only [Matrix.push]
    have hst : st.m.total = H + st.m.nodes.length := by
      show st.m.headers.length + st.m.nodes.length = H + st.m.nodes.length
      rw [hH]
    have hm1h : (st.m.updateSize (sparseToDense d2s sp) 1).headers.length = H := by
      rw [Matrix.updateSize_headers_length, hH]
    have hm1n : (st.m.updateSize (sparseToDense d2s sp) 1).nodes.length =
        st.m.nodes.length := by
      rw [Matrix.updateSize_nodes]
    have hidx : ((st.m.updateSize (sparseToDense d2s sp) 1).headers.length +
        (st.m.updateSize (sparseToDense d2s sp) 1).nodes.length) % 2 ^ 32
        = H + st.m.nodes.length := by
      rw [hm1h, hm1n]
      exact Nat.mod_eq_of_lt hb
    rw [hidx]
    have hm2get : ∀ x, x < st.m.total →
        (Matrix.mk (st.m.updateSize (sparseToDense d2s sp) 1).headers
          ((st.m.updateSize (sparseToDense d2s sp) 1).nodes ++
            [Node.dangling r (sparseToDense d2s sp)])).get x =
        (st.m.updateSize (sparseToDense d2s sp) 1).get x := by
      intro x hx
      refine push_get_lt (st.m.updateSize (sparseToDense d2s sp) 1)
        (Node.dangling r (sparseToDense d2s sp)) x ?_
      show x < (st.m.updateSize (sparseToDense d2s sp) 1).headers.length +
        (st.m.updateSize (sparseToDense d2s sp) 1).nodes.length
      rw [hm1h, hm1n]
      omega
    have hm2new : (Matrix.mk (st.m.updateSize (sparseToDense d2s sp) 1).headers
        ((st.m.updateSize (sparseToDense d2s sp) 1).nodes ++
          [Node.dangling r (sparseToDense d2s sp)])).get (H + st.m.nodes.length) =
        Node.dangling r (sparseToDense d2s sp) := by
      have hp := push_get_new (st.m.updateSize (sparseToDense d2s sp) 1)
        (Node.dangling r (sparseToDense d2s sp))
      rw [hm1h, hm1n] at hp
      exact hp
    have hm2tot : (Matrix.mk (st.m.updateSize (sparseToDense d2s sp) 1).headers
        ((st.m.updateSize (sparseToDense d2s sp) 1).nodes ++
          [Node.dangling r (sparseToDense d2s sp)])).total = st.m.total + 1 := by
      refine (total_push (st.m.updateSize (sparseToDense d2s sp) 1)
        (Node.dangling r (sparseToDense d2s sp))).trans ?_
      rw [Matrix.total_updateSize]
    have hup_lt : st.prev.getD (sparseToDense d2s sp) 0 < st.m.total + 1 := by
      rw [hprev _ hc0.1 hc0.2]
      rcases List.mem_cons.mp (getLastD_mem_cons
        (colNodes st.m (sparseToDense d2s sp)) (sparseToDense d2s sp)) with h | h
      · rw [h]
        omega
      · have := (colNodes_mem_bounds _ _ _ h).2
        omega
    have hAh : ((Matrix.mk (st.m.updateSize (sparseToDense d2s sp) 1).headers
        ((st.m.updateSize (sparseToDense d2s sp) 1).nodes ++
          [Node.dangling r (sparseToDense d2s sp)])).attachVertical
        (st.prev.getD (sparseToDense d2s sp) 0) (H + st.m.nodes.length)).headers.length = H :=
      (sameRC_attachVertical _ _ _).1.trans hm1h
    have hAn : ((Matrix.mk (st.m.updateSize (sparseToDense d2s sp) 1).headers
        ((st.m.updateSize (sparseToDense d2s sp) 1).nodes ++
          [Node.dangling r (sparseToDense d2s sp)])).attachVertical
        (st.prev.getD (sparseToDense d2s sp) 0) (H + st.m.nodes.length)).nodes.length = st.m.nodes.length + 1 := by
      refine (sameRC_attachVertical _ _ _).2.1.trans ?_
      show ((st.m.updateSize (sparseToDense d2s sp) 1).nodes ++
        [Node.dangling r (sparseToDense d2s sp)]).length = st.m.nodes.length + 1
      rw [List.length_append, hm1n]
      rfl
    have hAgu : ∀ x, x < st.m.total → (((Matrix.mk (st.m.updateSize (sparseToDense d2s sp) 1).headers
        ((st.m.updateSize (sparseToDense d2s sp) 1).nodes ++
          [Node.dangling r (sparseToDense d2s sp)])).attachVertical
        (st.prev.getD (sparseToDense d2s sp) 0) (H + st.m.nodes.length)).get x).u = (st.m.get x).u := by
      intro x hx
      rw [attachV_u, if_neg (by
        rintro ⟨hcon, -⟩
        omega), hm2get x hx, Matrix.get_updateSize]
    have hAgd : ∀ x, x < st.m.total → x ≠ st.prev.getD (sparseToDense d2s sp) 0 →
        (((Matrix.mk (st.m.updateSize (sparseToDense d2s sp) 1).headers
        ((st.m.updateSize (sparseToDense d2s sp) 1).nodes ++
          [Node.dangling r (sparseToDense d2s sp)])).attachVertical
        (st.prev.getD (sparseToDense d2s sp) 0) (H + st.m.nodes.length)).get x).d = (st.m.get x).d := by
      intro x hx hxu
      rw [attachV_d, if_neg (by
        rintro ⟨hcon, -⟩
        exact hxu hcon), hm2get x hx, Matrix.get_updateSize]
    have hAdup : (((Matrix.mk (st.m.updateSize (sparseToDense d2s sp) 1).headers
        ((st.m.updateSize (sparseToDense d2s sp) 1).nodes ++
          [Node.dangling r (sparseToDense d2s sp)])).attachVertical
        (st.prev.getD (sparseToDense d2s sp) 0) (H + st.m.nodes.length)).get (st.prev.getD (sparseToDense d2s sp) 0)).d =
        H + st.m.nodes.length := by
      rw [attachV_d, if_pos ⟨rfl, by rw [hm2tot]; exact hup_lt⟩]
    have hAuidx : (((Matrix.mk (st.m.updateSize (sparseToDense d2s sp) 1).headers
        ((st.m.updateSize (sparseToDense d2s sp) 1).nodes ++
          [Node.dangling r (sparseToDense d2s sp)])).attachVertical
        (st.prev.getD (sparseToDense d2s sp) 0) (H + st.m.nodes.length)).get (H + st.m.nodes.length)).u =
        st.prev.getD (sparseToDense d2s sp) 0 := by
      rw [attachV_u, if_pos ⟨rfl, by rw [hm2tot]; omega⟩]
    have hArc : ∀ x, x < st.m.total →
        (((Matrix.mk (st.m.updateSize (sparseToDense d2s sp) 1).headers
        ((st.m.updateSize (sparseToDense d2s sp) 1).nodes ++
          [Node.dangling r (sparseToDense d2s sp)])).attachVertical
        (st.prev.getD (sparseToDense d2s sp) 0) (H + st.m.nodes.length)).get x).row = (st.m.get x).row ∧
        (((Matrix.mk (st.m.updateSize (sparseToDense d2s sp) 1).headers
        ((st.m.updateSize (sparseToDense d2s sp) 1).nodes ++
          [Node.dangling r (sparseToDense d2s sp)])).attachVertical
        (st.prev.getD (sparseToDense d2s sp) 0) (H + st.m.nodes.length)).get x).col = (st.m.get x).col := by
      intro x hx
      obtain ⟨hr1, hc1⟩ := (sameRC_attachVertical (Matrix.mk
        (st.m.updateSize (sparseToDense d2s sp) 1).headers
        ((st.m.updateSize (sparseToDense d2s sp) 1).nodes ++
          [Node.dangling r (sparseToDense d2s sp)]))
        (st.prev.getD (sparseToDense d2s sp) 0) (H + st.m.nodes.length)).2.2 x
      rw [hr1, hc1, hm2get x hx, Matrix.get_updateSize]
      exact ⟨rfl, rfl⟩
    have hAnew : (((Matrix.mk (st.m.updateSize (sparseToDense d2s sp) 1).headers
        ((st.m.updateSize (sparseToDense d2s sp) 1).nodes ++
          [Node.dangling r (sparseToDense d2s sp)])).attachVertical
        (st.prev.getD (sparseToDense d2s sp) 0) (H + st.m.nodes.length)).get (H + st.m.nodes.length)).row = r ∧
        (((Matrix.mk (st.m.updateSize (sparseToDense d2s sp) 1).headers
        ((st.m.updateSize (sparseToDense d2s sp) 1).nodes ++
          [Node.dangling r (sparseToDense d2s sp)])).attachVertical
        (st.prev.getD (sparseToDense d2s sp) 0) (H + st.m.nodes.length)).get (H + st.m.nodes.length)).col = sparseToDense d2s sp := by
      obtain ⟨hr1, hc1⟩ := (sameRC_attachVertical (Matrix.mk
        (st.m.updateSize (sparseToDense d2s sp) 1).headers
        ((st.m.updateSize (sparseToDense d2s sp) 1).nodes ++
          [Node.dangling r (sparseToDense d2s sp)]))
        (st.prev.getD (sparseToDense d2s sp) 0) (H + st.m.nodes.length)).2.2
        (H + st.m.nodes.length)
      rw [hr1, hc1, hm2new]
      exact ⟨rfl, rfl⟩
    have hAsz : ∀ c, ((Matrix.mk (st.m.updateSize (sparseToDense d2s sp) 1).headers
        ((st.m.updateSize (sparseToDense d2s sp) 1).nodes ++
          [Node.dangling r (sparseToDense d2s sp)])).attachVertical
        (st.prev.getD (sparseToDense d2s sp) 0) (H + st.m.nodes.length)).size c =
        if c = sparseToDense d2s sp then st.m.size (sparseToDense d2s sp) + 1
        else st.m.size c := by
      intro c
      rw [size_attachV]
      show (st.m.updateSize (sparseToDense d2s sp) 1).size c = _
      rw [size_updateSize]
      have hsb : st.m.size (sparseToDense d2s sp) ≤ st.m.nodes.length := by
        rw [(hinv _ hc0.1 hc0.2).2]
        exact colNodes_length_le st.m _
      by_cases hcc : c = sparseToDense d2s sp
      · rw [if_pos ⟨hcc, by rw [hH]; exact hc0.2⟩, if_pos hcc]
        omega
      · rw [if_neg (by
          rintro ⟨hcon, -⟩
          exact hcc hcon), if_neg hcc]
    have hcore := buildCell_core st ((Matrix.mk (st.m.updateSize (sparseToDense d2s sp) 1).headers
        ((st.m.updateSize (sparseToDense d2s sp) 1).nodes ++
          [Node.dangling r (sparseToDense d2s sp)])).attachVertical
        (st.prev.getD (sparseToDense d2s sp) 0) (H + st.m.nodes.length)) H (sparseToDense d2s sp) r
      (st.prev.getD (sparseToDense d2s sp) 0) hH hc0
      (hprev _ hc0.1 hc0.2) hAh hAn hAgu hAgd hAdup hAuidx hArc hAnew.2 hAsz
      (fun c h1 h2 => hinv c h1 h2)
    have hBh : (((Matrix.mk (st.m.updateSize (sparseToDense d2s sp) 1).headers
        ((st.m.updateSize (sparseToDense d2s sp) 1).nodes ++
          [Node.dangling r (sparseToDense d2s sp)])).attachVertical
        (st.prev.getD (sparseToDense d2s sp) 0) (H + st.m.nodes.length)).attachHorizontal
        (H + st.m.nodes.length - 1) (H + st.m.nodes.length)).headers.length = H :=
      (sameRC_attachHorizontal _ _ _).1.trans hAh
    have hBn : (((Matrix.mk (st.m.updateSize (sparseToDense d2s sp) 1).headers
        ((st.m.updateSize (sparseToDense d2s sp) 1).nodes ++
          [Node.dangling r (sparseToDense d2s sp)])).attachVertical
        (st.prev.getD (sparseToDense d2s sp) 0) (H + st.m.nodes.length)).attachHorizontal
        (H + st.m.nodes.length - 1) (H + st.m.nodes.length)).nodes.length = st.m.nodes.length + 1 :=
      (sameRC_attachHorizontal _ _ _).2.1.trans hAn
    have hBgu : ∀ x, x < st.m.total → ((((Matrix.mk (st.m.updateSize (sparseToDense d2s sp) 1).headers
        ((st.m.updateSize (sparseToDense d2s sp) 1).nodes ++
          [Node.dangling r (sparseToDense d2s sp)])).attachVertical
        (st.prev.getD (sparseToDense d2s sp) 0) (H + st.m.nodes.length)).attachHorizontal
        (H + st.m.nodes.length - 1) (H + st.m.nodes.length)).get x).u = (st.m.get x).u := by
      intro x hx
      rw [attachH_u]
      exact hAgu x hx
    have hBgd : ∀ x, x < st.m.total → x ≠ st.prev.getD (sparseToDense d2s sp) 0 →
        ((((Matrix.mk (st.m.updateSize (sparseToDense d2s sp) 1).headers
        ((st.m.updateSize (sparseToDense d2s sp) 1).nodes ++
          [Node.dangling r (sparseToDense d2s sp)])).attachVertical
        (st.prev.getD (sparseToDense d2s sp) 0) (H + st.m.nodes.length)).attachHorizontal
        (H + st.m.nodes.length - 1) (H + st.m.nodes.length)).get x).d = (st.m.get x).d := by
      intro x hx hxu
      rw [attachH_d]
      exact hAgd x hx hxu
    have hBdup : ((((Matrix.mk (st.m.updateSize (sparseToDense d2s sp) 1).headers
        ((st.m.updateSize (sparseToDense d2s sp) 1).nodes ++
          [Node.dangling r (sparseToDense d2s sp)])).attachVertical
        (st.prev.getD (sparseToDense d2s sp) 0) (H + st.m.nodes.length)).attachHorizontal
        (H + st.m.nodes.length - 1) (H + st.m.nodes.length)).get (st.prev.getD (sparseToDense d2s sp) 0)).d =
        H + st.m.nodes.length := by
      rw [attachH_d]
      exact hAdup
    have hBuidx : ((((Matrix.mk (st.m.updateSize (sparseToDense d2s sp) 1).headers
        ((st.m.updateSize (sparseToDense d2s sp) 1).nodes ++
          [Node.dangling r (sparseToDense d2s sp)])).attachVertical
        (st.prev.getD (sparseToDense d2s sp) 0) (H + st.m.nodes.length)).attachHorizontal
        (H + st.m.nodes.length - 1) (H + st.m.nodes.length)).get (H + st.m.nodes.length)).u =
        st.prev.getD (sparseToDense d2s sp) 0 := by
      rw [attachH_u]
      exact hAuidx
    have hBrc : ∀ x, x < st.m.total →
        ((((Matrix.mk (st.m.updateSize (sparseToDense d2s sp) 1).headers
        ((st.m.updateSize (sparseToDense d2s sp) 1).nodes ++
          [Node.dangling r (sparseToDense d2s sp)])).attachVertical
        (st.prev.getD (sparseToDense d2s sp) 0) (H + st.m.nodes.length)).attachHorizontal
        (H + st.m.nodes.length - 1) (H + st.m.nodes.length)).get x).row = (st.m.get x).row ∧
        ((((Matrix.mk (st.m.updateSize (sparseToDense d2s sp) 1).headers
        ((st.m.updateSize (sparseToDense d2s sp) 1).nodes ++
          [Node.dangling r (sparseToDense d2s sp)])).attachVertical
        (st.prev.getD (sparseToDense d2s sp) 0) (H + st.m.nodes.length)).attachHorizontal
        (H + st.m.nodes.length - 1) (H + st.m.nodes.length)).get x).col = (st.m.get x).col := by
      intro x hx
      obtain ⟨hr1, hc1⟩ := (sameRC_attachHorizontal ((Matrix.mk (st.m.updateSize (sparseToDense d2s sp) 1).headers
        ((st.m.updateSize (sparseToDense d2s sp) 1).nodes ++
          [Node.dangling r (sparseToDense d2s sp)])).attachVertical
        (st.prev.getD (sparseToDense d2s sp) 0) (H + st.m.nodes.length))
        (H + st.m.nodes.length - 1) (H + st.m.nodes.length)).2.2 x
      rw [hr1, hc1]
      exact hArc x hx
    have hBnew : ((((Matrix.mk (st.m.updateSize (sparseToDense d2s sp) 1).headers
        ((st.m.updateSize (sparseToDense d2s sp) 1).nodes ++
          [Node.dangling r (sparseToDense d2s sp)])).attachVertical
        (st.prev.getD (sparseToDense d2s sp) 0) (H + st.m.nodes.length)).attachHorizontal
        (H + st.m.nodes.length - 1) (H + st.m.nodes.length)).get (H + st.m.nodes.length)).row = r ∧
        ((((Matrix.mk (st.m.updateSize (sparseToDense d2s sp) 1).headers
        ((st.m.updateSize (sparseToDense d2s sp) 1).nodes ++
          [Node.dangling r (sparseToDense d2s sp)])).attachVertical
        (st.prev.getD (sparseToDense d2s sp) 0) (H + st.m.nodes.length)).attachHorizontal
        (H + st.m.nodes.length - 1) (H + st.m.nodes.length)).get (H + st.m.nodes.length)).col = sparseToDense d2s sp := by
      obtain ⟨hr1, hc1⟩ := (sameRC_attachHorizontal ((Matrix.mk (st.m.updateSize (sparseToDense d2s sp) 1).headers
        ((st.m.updateSize (sparseToDense d2s sp) 1).nodes ++
          [Node.dangling r (sparseToDense d2s sp)])).attachVertical
        (st.prev.getD (sparseToDense d2s sp) 0) (H + st.m.nodes.length))
        (H + st.m.nodes.length - 1) (H + st.m.nodes.length)).2.2
        (H + st.m.nodes.length)
      rw [hr1, hc1]
      exact hAnew
    have hBsz : ∀ c, (((Matrix.mk (st.m.updateSize (sparseToDense d2s sp) 1).headers
        ((st.m.updateSize (sparseToDense d2s sp) 1).nodes ++
          [Node.dangling r (sparseToDense d2s sp)])).attachVertical
        (st.prev.getD (sparseToDense d2s sp) 0) (H + st.m.nodes.length)).attachHorizontal
        (H + st.m.nodes.length - 1) (H + st.m.nodes.length)).size c =
        if c = sparseToDense d2s sp then st.m.size (sparseToDense d2s sp) + 1
        else st.m.size c := by
      intro c
      rw [size_attachH]
      exact hAsz c
    have hcoreB := buildCell_core st (((Matrix.mk (st.m.updateSize (sparseToDense d2s sp) 1).headers
        ((st.m.updateSize (sparseToDense d2s sp) 1).nodes ++
          [Node.dangling r (sparseToDense d2s sp)])).attachVertical
        (st.prev.getD (sparseToDense d2s sp) 0) (H + st.m.nodes.length)).attachHorizontal
        (H + st.m.nodes.length - 1) (H + st.m.nodes.length)) H (sparseToDense d2s sp) r
      (st.prev.getD (sparseToDense d2s sp) 0) hH hc0
      (hprev _ hc0.1 hc0.2) hBh hBn hBgu hBgd hBdup hBuidx hBrc hBnew.2 hBsz
      (fun c h1 h2 => hinv c h1 h2)
    refine ⟨hBh, hBn, by rw [List.length_set, hP], hBrc, hBnew.1, hBnew.2, ?_⟩
    intro c h1 h2
    obtain ⟨he, hch, hsz⟩ := hcoreB c h1 h2
    refine ⟨hch, hsz, ?_, he⟩
    by_cases hcc : sparseToDense d2s sp = c
    · subst hcc
      rw [getD_set_eq _ _ _ _ (by rw [hP]; exact h2), he, if_pos rfl,
        getLastD_concat]
    · rw [getD_set_ne _ _ _ _ _ (fun hcon => hcc hcon.symm), he, if_neg hcc,
        List.append_nil, hprev c h1 h2]

end DancingLinks
